import Mathlib

/-
Verification of the certdepot repository: a shallow embedding of the
MongoDB-backed certificate depot (mongodb_depot.go, superset.go, cert.go)
together with theorems settling the specification claims.

Byte slices are modelled as `Option String`: `none` is Go's nil slice and
`some s` a (possibly empty) non-nil slice.  BSON documents are modelled with
`Option String` fields: `none` is an absent field, `some s` a present field;
decoding an absent field yields the empty string, as the Go driver does.
Timestamps and durations are modelled as `Int`.
-/

namespace Certdepot

/-- The four artifact kinds addressed by certstrap depot tags
(.crt, .key, .csr, .crl suffixes). -/
inductive ArtifactKind where
  | crt
  | privKey
  | csr
  | crl
deriving DecidableEq, Repr

/-- A depot tag: the (identity, artifact kind) pair used as storage key. -/
structure Tag where
  name : String
  kind : ArtifactKind
deriving DecidableEq, Repr

def crtTag (n : String) : Tag := ⟨n, ArtifactKind.crt⟩

def privKeyTag (n : String) : Tag := ⟨n, ArtifactKind.privKey⟩

def csrTag (n : String) : Tag := ⟨n, ArtifactKind.csr⟩

def crlTag (n : String) : Tag := ⟨n, ArtifactKind.crl⟩

/-- Go strings.Replace(name, " ", "_", -1): replace every space with an
underscore (the pattern is a single character, so per-character mapping is
exact). -/
def formatName (s : String) : String :=
  String.mk (s.data.map (fun c => if c = ' ' then '_' else c))

/-- A character accepted by the regex [a-zA-Z0-9._-] used for certificate
request names (Char.isAlphanum is precisely [a-zA-Z0-9]). -/
def csrCharAcceptable (c : Char) : Bool :=
  c.isAlphanum || c == '.' || c == '_' || c == '-'

/-- getFormattedCertificateRequestName in cert.go: every character outside
[a-zA-Z0-9._-] is replaced with an underscore.  (The regexp.Compile on the
constant pattern never fails, so the error return is dropped.) -/
def getFormattedCertificateRequestName (s : String) : String :=
  String.mk (s.data.map (fun c => if csrCharAcceptable c then c else '_'))

/-- Modelled from the spec: the database backend's one-document-per-identity
record with fields id, cert, key, cert_req, cert_revoc_list and ttl (the
`User` struct declaration itself is not among the provided sources; only its
uses in mongodb_depot.go and part_001 are).  `none` models an absent BSON
field, which the Go driver decodes to the empty string. -/
structure User where
  id : String
  cert : Option String
  privateKey : Option String
  certReq : Option String
  certRevocList : Option String
  ttl : Option Int
deriving DecidableEq, Repr

/-- The zero value of the Go User struct, produced by Decode when FindOne
returns no document. -/
def userZero : User := ⟨"", none, none, none, none, none⟩

/-- A fresh document created by an upsert matching only on the id filter. -/
def emptyUser (n : String) : User := ⟨n, none, none, none, none, none⟩

/-- The decoded (Go-side) value of the certificate field. -/
def User.certS (u : User) : String := u.cert.getD ""

/-- The decoded (Go-side) value of the private key field. -/
def User.privateKeyS (u : User) : String := u.privateKey.getD ""

/-- The decoded (Go-side) value of the certificate request field. -/
def User.certReqS (u : User) : String := u.certReq.getD ""

/-- The decoded (Go-side) value of the certificate revocation list field. -/
def User.certRevocListS (u : User) : String := u.certRevocList.getD ""

/-- The stored (BSON-level) field of a document for an artifact kind. -/
def fieldOpt (u : User) : ArtifactKind → Option String
  | ArtifactKind.crt => u.cert
  | ArtifactKind.privKey => u.privateKey
  | ArtifactKind.csr => u.certReq
  | ArtifactKind.crl => u.certRevocList

/-- The decoded field of a document for an artifact kind (absent reads ""). -/
def fieldStr (u : User) (k : ArtifactKind) : String := (fieldOpt u k).getD ""

/-- $set of one artifact field. -/
def setField (u : User) (k : ArtifactKind) (v : String) : User :=
  match k with
  | ArtifactKind.crt => { u with cert := some v }
  | ArtifactKind.privKey => { u with privateKey := some v }
  | ArtifactKind.csr => { u with certReq := some v }
  | ArtifactKind.crl => { u with certRevocList := some v }

/-- $unset of one artifact field. -/
def unsetField (u : User) (k : ArtifactKind) : User :=
  match k with
  | ArtifactKind.crt => { u with cert := none }
  | ArtifactKind.privKey => { u with privateKey := none }
  | ArtifactKind.csr => { u with certReq := none }
  | ArtifactKind.crl => { u with certRevocList := none }

/-- getNameAndKey in cert.go.  certstrap's GetNameFrom*Tag helpers return the
tag's name when the tag has the corresponding suffix and "" otherwise, so for
a tag with an empty name every case falls through and the Go function returns
an empty update key, modelled as `none`. -/
def getNameAndKey (tag : Tag) : String × Option ArtifactKind :=
  if tag.name = "" then ("", none)
  else
    match tag.kind with
    | ArtifactKind.crt => (formatName tag.name, some ArtifactKind.crt)
    | ArtifactKind.privKey => (formatName tag.name, some ArtifactKind.privKey)
    | ArtifactKind.csr =>
        (getFormattedCertificateRequestName tag.name, some ArtifactKind.csr)
    | ArtifactKind.crl => (formatName tag.name, some ArtifactKind.crl)

/-- The collection state: the list of documents.  MongoDB's unique index on
the id is not assumed; UpdateOne touches only the first matching document. -/
abbrev MongoState := List User

/-- FindOne by the id filter. -/
def findOne (db : MongoState) (n : String) : Option User :=
  db.find? (fun u => u.id == n)

/-- UpdateOne (without upsert): apply g to the first document matching the id
filter, leaving everything else unchanged; a no-op when nothing matches. -/
def updateFirst (db : MongoState) (n : String) (g : User → User) : MongoState :=
  match db with
  | [] => []
  | u :: rest => if u.id == n then g u :: rest else u :: updateFirst rest n g

/-- UpdateOne with SetUpsert(true) and a $set of one field: update the first
matching document, or insert a fresh document built from the id filter plus
the $set. -/
def upsertSet (db : MongoState) (n : String) (k : ArtifactKind) (v : String) :
    MongoState :=
  match findOne db n with
  | some _ => updateFirst db n (fun u => setField u k v)
  | none => db ++ [setField (emptyUser n) k v]

/-- The outcome of the driver's FindOne-and-Decode call, so that the
storage-failure path of Check/CheckWithError/Get can be stated: `doc` is a
successful decode, `noDocuments` is mongo.ErrNoDocuments, and `dbError` any
other driver error. -/
inductive FindOneOutcome where
  | doc (u : User)
  | noDocuments
  | dbError (e : String)
deriving DecidableEq, Repr

/-- The driver outcome over the pure collection state (which cannot produce
an I/O failure). -/
def driverFindOne (db : MongoState) (n : String) : FindOneOutcome :=
  match findOne db n with
  | some u => FindOneOutcome.doc u
  | none => FindOneOutcome.noDocuments

/-- Decode leaves the zero-valued User untouched unless a document was found
(mongoDepot.Check ignores the FindOne error apart from logging it). -/
def decodeOutcome : FindOneOutcome → User
  | FindOneOutcome.doc u => u
  | FindOneOutcome.noDocuments => userZero
  | FindOneOutcome.dbError _ => userZero

/-- mongoDepot.Check given the driver outcome of its FindOne call: the error
is only logged, and the switch runs on the decoded (possibly zero) document.
A malformed tag (empty update key) hits the default case and yields false. -/
def mongoCheckWith (res : FindOneOutcome) (tag : Tag) : Bool :=
  let nk := getNameAndKey tag
  let u := decodeOutcome res
  match nk.2 with
  | some ArtifactKind.crt => u.certS != ""
  | some ArtifactKind.privKey => u.privateKeyS != ""
  | some ArtifactKind.csr => u.certReqS != ""
  | some ArtifactKind.crl => u.certRevocListS != ""
  | none => false

/-- mongoDepot.Check over the pure collection state. -/
def mongoCheck (db : MongoState) (tag : Tag) : Bool :=
  mongoCheckWith (driverFindOne db (getNameAndKey tag).1) tag

/-- mongoDepot.CheckWithError given the driver outcome: a driver error other
than ErrNoDocuments is returned to the caller; otherwise the same switch as
Check runs on the decoded document. -/
def mongoCheckWithErrorWith (res : FindOneOutcome) (tag : Tag) :
    Except String Bool :=
  match res with
  | FindOneOutcome.dbError e => Except.error e
  | r => Except.ok (mongoCheckWith r tag)

/-- mongoDepot.CheckWithError over the pure collection state. -/
def mongoCheckWithError (db : MongoState) (tag : Tag) : Except String Bool :=
  mongoCheckWithErrorWith (driverFindOne db (getNameAndKey tag).1) tag

/-- mongoDepot.Get given the driver outcome: ErrNoDocuments is "name not
found", another driver error is wrapped, and an empty decoded field (absent
or stored empty) is "no data available". -/
def mongoGetWith (res : FindOneOutcome) (tag : Tag) : Except String String :=
  let nk := getNameAndKey tag
  match res with
  | FindOneOutcome.noDocuments =>
      Except.error ("name '" ++ nk.1 ++ "' not found")
  | FindOneOutcome.dbError e => Except.error e
  | FindOneOutcome.doc u =>
      let data : String :=
        match nk.2 with
        | some ArtifactKind.crt => u.certS
        | some ArtifactKind.privKey => u.privateKeyS
        | some ArtifactKind.csr => u.certReqS
        | some ArtifactKind.crl => u.certRevocListS
        | none => ""
      if data = "" then Except.error "no data available" else Except.ok data

/-- mongoDepot.Get over the pure collection state. -/
def mongoGet (db : MongoState) (tag : Tag) : Except String String :=
  mongoGetWith (driverFindOne db (getNameAndKey tag).1) tag

/-- mongoDepot.Put: only a nil slice is rejected; a non-nil slice (empty or
not) is upserted with $set of the one field.  A malformed tag produces an
empty update path, which the server rejects. -/
def mongoPut (db : MongoState) (tag : Tag) (data : Option String) :
    Except String (MongoState) :=
  match data with
  | none => Except.error "data is nil"
  | some s =>
      let nk := getNameAndKey tag
      match nk.2 with
      | none => Except.error "empty update path"
      | some k => Except.ok (upsertSet db nk.1 k s)

/-- mongoDepot.Delete: UpdateOne (no upsert) with $unset of the one field;
matching nothing is a silent no-op success.  A malformed tag produces an
empty update path, which the server rejects. -/
def mongoDelete (db : MongoState) (tag : Tag) : Except String (MongoState) :=
  let nk := getNameAndKey tag
  match nk.2 with
  | none => Except.error "empty update path"
  | some k => Except.ok (updateFirst db nk.1 (fun u => unsetField u k))

/-- mongoDepot.PutTTL (part_001): UpdateOne (no upsert) with a $set of the
ttl field on the space-formatted name; an update that matches nothing or
modifies nothing (ModifiedCount == 0) is an error. -/
def mongoPutTTL (db : MongoState) (name : String) (expiration : Int) :
    Except String (MongoState) :=
  let formattedName := formatName name
  match findOne db formattedName with
  | none => Except.error ("update did not change TTL for user " ++ name)
  | some u =>
      if u.ttl == some expiration then
        Except.error ("update did not change TTL for user " ++ name)
      else
        Except.ok (updateFirst db formattedName
          (fun v => { v with ttl := some expiration }))

/-- The stored (BSON-level) field of kind k in the document named n, if any:
the observation used to state frame conditions. -/
def storedOpt (db : MongoState) (n : String) (k : ArtifactKind) :
    Option String :=
  match findOne db n with
  | none => none
  | some u => fieldOpt u k

/-- Whether an Except value is a success. -/
def exOk {α : Type} : Except String α → Bool
  | Except.ok _ => true
  | Except.error _ => false

/-- Modelled from the spec: the filesystem backend stores one file per
(identity, kind) pair; its code is certstrap's FileDepot, an external
collaborator the spec treats as a pre-existing capability satisfying the
Depot contract. -/
abbrev FsState := List (String × ArtifactKind × String)

/-- The file stored for a tag, if any. -/
def fsLookup (fs : FsState) (tag : Tag) : Option String :=
  Option.map (fun e => e.2.2)
    (fs.find? (fun e => e.1 == tag.name && e.2.1 == tag.kind))

/-- Modelled from the spec: filesystem-backend Delete fails when the file
does not exist and otherwise removes exactly that one file. -/
def fsDelete (fs : FsState) (tag : Tag) : Except String FsState :=
  match fsLookup fs tag with
  | none => Except.error "file does not exist"
  | some _ =>
      Except.ok (fs.filter (fun e => !(e.1 == tag.name && e.2.1 == tag.kind)))

/-- Modelled from the spec: filesystem-backend Put fails for empty or nil
data and when an artifact already exists at the tag (no silent overwrite). -/
def fsPut (fs : FsState) (tag : Tag) (data : Option String) :
    Except String FsState :=
  match data with
  | none => Except.error "data is nil"
  | some s =>
      if s = "" then Except.error "data is empty"
      else
        match fsLookup fs tag with
        | some _ => Except.error "file already exists"
        | none => Except.ok (fs ++ [(tag.name, tag.kind, s)])

/-- The NotBefore/NotAfter/IsCA view of a parsed x509 certificate
(pkix.Certificate.GetRawCertificate); NotBefore is not needed by any
claim. -/
structure RawCert where
  notAfter : Int
  isCA : Bool
deriving DecidableEq, Repr

/-- The external PKI primitives library (certstrap pkix) and file reads,
modelled as oracles.  Certificates, keys, CSRs and CRLs are identified with
their exported PEM bytes, so the export steps are identities and parsing is
an oracle from PEM bytes.  `parseCert` combines NewCertificateFromPEM and
GetRawCertificate into one fallible step. -/
structure Pkix where
  parseCert : String → Except String RawCert
  parseCSR : String → Except String String
  parseKey : String → Except String String
  readKeyFile : String → Except String String
  createKey : Nat → Except String String
  encryptKey : String → String → String
  decryptKey : String → String → Except String String
  parseIPs : List String → Except String (List String)
  parseURIs : List String → Except String (List String)
  createCSR : String → String → List String → List String → List String →
    String → String → String → String → String → Except String String
  createCA : String → String → Int → String → String → String → String →
    String → Except String String
  createCRL : String → String → Int → Except String String
  createHost : String → String → String → Int → Except String String
  createIntermediate : String → String → String → Int → Except String String

/-- CertificateOptions from cert.go.  The unexported csr/key/crt pointers
are the in-memory caches; they are modelled as Option values holding PEM
bytes. -/
structure CertificateOptions where
  passphrase : String
  keyBits : Nat
  organization : String
  country : String
  locality : String
  commonName : String
  organizationalUnit : String
  province : String
  ip : List String
  domain : List String
  uri : List String
  key : String
  expires : Int
  host : String
  ca : String
  caPassphrase : String
  intermediate : Bool
  csrCache : Option String
  keyCache : Option String
  crtCache : Option String
deriving DecidableEq, Repr

/-- DepotOptions from interface.go: the default CA name and expiration used
by generation. -/
structure DepotOptions where
  ca : String
  defaultExpiration : Int
deriving DecidableEq, Repr

/-- Modelled from the spec: the Credentials bundle of CA certificate, leaf
certificate, private key and server name returned by generation calls (its
declaration is not among the provided sources; only its uses are). -/
structure Credentials where
  caCert : String
  cert : String
  key : String
  serverName : String
deriving DecidableEq, Repr

/-- Modelled from the spec: the Credentials constructor used by
depotGenerate; it bundles the three PEM blobs (the ServerName is assigned
afterwards by the caller in superset.go). -/
def NewCredentials (ca crt k : String) : Except String Credentials :=
  Except.ok ⟨ca, crt, k, ""⟩

/-- getCertificateRequestName in cert.go: common name, else first domain,
else an error. -/
def getCertificateRequestName (o : CertificateOptions) :
    Except String String :=
  if o.commonName = "" then
    match o.domain with
    | d :: _ => Except.ok d
    | [] => Except.error "must provide a common name or domain"
  else Except.ok o.commonName

/-- getFormattedCertificateRequestName (method form) in cert.go. -/
def getFormattedCertificateRequestNameOf (o : CertificateOptions) :
    Except String String :=
  match getCertificateRequestName o with
  | Except.error e => Except.error e
  | Except.ok n => Except.ok (getFormattedCertificateRequestName n)

/-- getOrCreatePrivateKey in cert.go: read the configured key file, or
generate an RSA key of KeyBits bits (default 2048). -/
def getOrCreatePrivateKey (pk : Pkix) (o : CertificateOptions) :
    Except String String :=
  if o.key = "" then
    pk.createKey (if o.keyBits = 0 then 2048 else o.keyBits)
  else pk.readKeyFile o.key

/-- certRequestedInMemory in cert.go. -/
def certRequestedInMemory (o : CertificateOptions) : Bool :=
  o.csrCache.isSome && o.keyCache.isSome

/-- CertificateOptions.Init in cert.go over the MongoDB depot, which is the
depot realization provided in the sources (the wd.(*mongoDepot) type switch
is taken, so the CA's TTL is recorded).  CheckCertificateWithError and
CheckPrivateKeyWithError are this repository's wrappers (not among the
provided sources); per the spec they are the CheckWithError existence test
on the certificate and private-key tags.  Returns (error, final state);
every failure before the first write returns the unchanged state. -/
def mongoInit (pk : Pkix) (now : Int) (o : CertificateOptions)
    (db : MongoState) : Option String × MongoState :=
  if o.commonName = "" then (some "must provide common name of CA", db)
  else
    let formattedName := formatName o.commonName
    match mongoCheckWithError db (crtTag formattedName) with
    | Except.error e => (some e, db)
    | Except.ok certExists =>
      match mongoCheckWithError db (privKeyTag formattedName) with
      | Except.error e => (some e, db)
      | Except.ok privKeyExists =>
        if certExists || privKeyExists then
          (some "CA with specified name already exists", db)
        else
          match getOrCreatePrivateKey pk o with
          | Except.error e => (some e, db)
          | Except.ok keyPem =>
            let expiresTime := now + o.expires
            match pk.createCA keyPem o.organizationalUnit expiresTime
                o.organization o.country o.province o.locality
                o.commonName with
            | Except.error e => (some e, db)
            | Except.ok crtPem =>
              match mongoPut db (crtTag formattedName) (some crtPem) with
              | Except.error e => (some e, db)
              | Except.ok db1 =>
                let keyData :=
                  if o.passphrase = "" then keyPem
                  else pk.encryptKey keyPem o.passphrase
                match mongoPut db1 (privKeyTag formattedName)
                    (some keyData) with
                | Except.error e => (some e, db1)
                | Except.ok db2 =>
                  match pk.createCRL keyPem crtPem expiresTime with
                  | Except.error e => (some e, db2)
                  | Except.ok crlPem =>
                    match mongoPut db2 (crlTag formattedName)
                        (some crlPem) with
                    | Except.error e => (some e, db2)
                    | Except.ok db3 =>
                      match pk.parseCert crtPem with
                      | Except.error e => (some e, db3)
                      | Except.ok rawCrt =>
                        match mongoPutTTL db3 formattedName
                            rawCrt.notAfter with
                        | Except.error e => (some e, db3)
                        | Except.ok db4 => (none, db4)

/-- CertificateOptions.CertRequestInMemory in cert.go: idempotent given a
cached CSR+key pair; otherwise parses the subject-alternative-name lists,
resolves the request name, obtains a private key and builds a CSR, caching
the pair. -/
def CertRequestInMemory (pk : Pkix) (o : CertificateOptions) :
    Except String (String × String × CertificateOptions) :=
  match o.csrCache, o.keyCache with
  | some c, some k => Except.ok (c, k, o)
  | _, _ =>
    match pk.parseIPs o.ip with
    | Except.error e => Except.error e
    | Except.ok ips =>
      match pk.parseURIs o.uri with
      | Except.error e => Except.error e
      | Except.ok uris =>
        match getCertificateRequestName o with
        | Except.error e => Except.error e
        | Except.ok name =>
          match getOrCreatePrivateKey pk o with
          | Except.error e => Except.error e
          | Except.ok keyPem =>
            match pk.createCSR keyPem o.organizationalUnit ips o.domain
                uris o.organization o.country o.province o.locality
                name with
            | Except.error e => Except.error e
            | Except.ok csrPem =>
              Except.ok (csrPem, keyPem,
                { o with csrCache := some csrPem, keyCache := some keyPem })

/-- CertificateOptions.PutCertRequestFromMemory in cert.go over the MongoDB
depot: requires the cached CSR+key, fails when either already exists at the
formatted request name, then persists the CSR and the (possibly encrypted)
key.  Returns (error, final state). -/
def PutCertRequestFromMemory (pk : Pkix) (o : CertificateOptions)
    (db : MongoState) : Option String × MongoState :=
  match o.csrCache, o.keyCache with
  | some csrPem, some keyPem =>
    (match getFormattedCertificateRequestNameOf o with
     | Except.error e => (some e, db)
     | Except.ok formattedName =>
       match mongoCheckWithError db (csrTag formattedName) with
       | Except.error e => (some e, db)
       | Except.ok csrExists =>
         match mongoCheckWithError db (privKeyTag formattedName) with
         | Except.error e => (some e, db)
         | Except.ok privKeyExists =>
           if csrExists || privKeyExists then
             (some "certificate request or private key already exists", db)
           else
             match mongoPut db (csrTag formattedName) (some csrPem) with
             | Except.error e => (some e, db)
             | Except.ok db1 =>
               let keyData :=
                 if o.passphrase = "" then keyPem
                 else pk.encryptKey keyPem o.passphrase
               match mongoPut db1 (privKeyTag formattedName)
                   (some keyData) with
               | Except.error e => (some e, db1)
               | Except.ok db2 => (none, db2))
  | _, _ => (some "must make cert request first before putting into depot",
      db)

/-- CertificateOptions.CertRequest in cert.go: compute in memory, then
persist. -/
def CertRequest (pk : Pkix) (o : CertificateOptions) (db : MongoState) :
    Option String × CertificateOptions × MongoState :=
  match CertRequestInMemory pk o with
  | Except.error e => (some e, o, db)
  | Except.ok (_, _, o1) =>
    match PutCertRequestFromMemory pk o1 db with
    | (some e, db1) => (some e, o1, db1)
    | (none, db1) => (none, o1, db1)

/-- CertificateOptions.SignInMemory in cert.go over the MongoDB depot:
idempotent given a cached signed certificate; otherwise requires Host and
CA, loads the CSR (cache or storage), loads and validates the CA
certificate (IsCA), loads the (possibly encrypted) CA key, and builds the
host or intermediate certificate, caching it.  Returns the result together
with the options, whose cache is updated only on success (the Go method
assigns opts.crt last). -/
def SignInMemory (pk : Pkix) (now : Int) (o : CertificateOptions)
    (db : MongoState) : Except String String × CertificateOptions :=
  match o.crtCache with
  | some c => (Except.ok c, o)
  | none =>
    if o.host = "" then (Except.error "must provide name of host", o)
    else if o.ca = "" then (Except.error "must provide name of CA", o)
    else
      let formattedReqName := formatName o.host
      let formattedCAName := formatName o.ca
      let csrRes : Except String String :=
        if certRequestedInMemory o then
          Except.ok (o.csrCache.getD "")
        else
          match mongoGet db (csrTag formattedReqName) with
          | Except.error e => Except.error e
          | Except.ok b => pk.parseCSR b
      match csrRes with
      | Except.error e => (Except.error e, o)
      | Except.ok csrPem =>
        match mongoGet db (crtTag formattedCAName) with
        | Except.error e => (Except.error e, o)
        | Except.ok caPem =>
          match pk.parseCert caPem with
          | Except.error e => (Except.error e, o)
          | Except.ok rawCrt =>
            if !rawCrt.isCA then
              (Except.error
                ("'" ++ o.ca ++ "' is not allowed to sign certificates"), o)
            else
              let keyRes : Except String String :=
                match mongoGet db (privKeyTag formattedCAName) with
                | Except.error e => Except.error e
                | Except.ok b =>
                  if o.caPassphrase = "" then pk.parseKey b
                  else pk.decryptKey b o.caPassphrase
              match keyRes with
              | Except.error e => (Except.error e, o)
              | Except.ok keyPem =>
                let expiresTime := now + o.expires
                let crtRes :=
                  if o.intermediate then
                    pk.createIntermediate caPem keyPem csrPem expiresTime
                  else pk.createHost caPem keyPem csrPem expiresTime
                match crtRes with
                | Except.error e => (Except.error e, o)
                | Except.ok crtOut =>
                  (Except.ok crtOut, { o with crtCache := some crtOut })

/-- CertificateOptions.PutCertFromMemory in cert.go over the MongoDB depot:
requires the cached signed certificate, fails when a certificate already
exists at the formatted host name, persists it and records its NotAfter as
the TTL (the wd.(*mongoDepot) type switch is taken).  Returns (error, final
state). -/
def PutCertFromMemory (pk : Pkix) (o : CertificateOptions)
    (db : MongoState) : Option String × MongoState :=
  match o.crtCache with
  | none => (some "must sign cert first before putting into depot", db)
  | some crtPem =>
    let formattedReqName := formatName o.host
    match mongoCheckWithError db (crtTag formattedReqName) with
    | Except.error e => (some e, db)
    | Except.ok ex =>
      if ex then (some "certificate already exists", db)
      else
        match mongoPut db (crtTag formattedReqName) (some crtPem) with
        | Except.error e => (some e, db)
        | Except.ok db1 =>
          match pk.parseCert crtPem with
          | Except.error e => (some e, db1)
          | Except.ok rawCrt =>
            match mongoPutTTL db1 formattedReqName rawCrt.notAfter with
            | Except.error e => (some e, db1)
            | Except.ok db2 => (none, db2)

/-- CertificateOptions.Sign in cert.go: sign in memory, then persist. -/
def SignCert (pk : Pkix) (now : Int) (o : CertificateOptions)
    (db : MongoState) : Option String × CertificateOptions × MongoState :=
  match SignInMemory pk now o db with
  | (Except.error e, o1) => (some e, o1, db)
  | (Except.ok _, o1) =>
    match PutCertFromMemory pk o1 db with
    | (some e, db1) => (some e, o1, db1)
    | (none, db1) => (none, o1, db1)

/-- CertificateOptions.CreateCertificate in cert.go: CertRequest then
Sign. -/
def CreateCertificate (pk : Pkix) (now : Int) (o : CertificateOptions)
    (db : MongoState) : Option String × CertificateOptions × MongoState :=
  match CertRequest pk o db with
  | (some e, o1, db1) => (some e, o1, db1)
  | (none, o1, db1) => SignCert pk now o1 db1

/-- DeleteOnExpiration in cert.go over the MongoDB depot: nothing to do if
no certificate exists; otherwise read and parse it, and if its NotAfter is
before now+after delete the certificate, the CSR (only when the certificate
is not a CA) and the private key, returning true. -/
def DeleteOnExpiration (pk : Pkix) (now : Int) (db : MongoState)
    (name : String) (after : Int) : Except String (Bool × MongoState) :=
  match mongoCheckWithError db (crtTag name) with
  | Except.error e => Except.error e
  | Except.ok ex =>
    if !ex then Except.ok (false, db)
    else
      match mongoGet db (crtTag name) with
      | Except.error e => Except.error e
      | Except.ok pem =>
        match pk.parseCert pem with
        | Except.error e => Except.error e
        | Except.ok rawCert =>
          if rawCert.notAfter < now + after then
            match mongoDelete db (crtTag name) with
            | Except.error e => Except.error e
            | Except.ok db1 =>
              match
                (if !rawCert.isCA then mongoDelete db1 (csrTag name)
                 else Except.ok db1) with
              | Except.error e => Except.error e
              | Except.ok db2 =>
                match mongoDelete db2 (privKeyTag name) with
                | Except.error e => Except.error e
                | Except.ok db3 => Except.ok (true, db3)
          else Except.ok (false, db)

/-- CertificateOptions.CreateCertificateOnExpiration in cert.go over the
MongoDB depot.  Note that the existence check and DeleteOnExpiration use
the UNformatted common name, and that `created` is set to true whenever
CreateCertificate is attempted, even when it then fails with an error.
Returns (error, created, options, state). -/
def CreateCertificateOnExpiration (pk : Pkix) (now : Int)
    (o : CertificateOptions) (db : MongoState) (after : Int) :
    Option String × Bool × CertificateOptions × MongoState :=
  match mongoCheckWithError db (crtTag o.commonName) with
  | Except.error e => (some e, false, o, db)
  | Except.ok ex =>
    if ex then
      match DeleteOnExpiration pk now db o.commonName after with
      | Except.error e => (some e, false, o, db)
      | Except.ok (dne, db1) =>
        if dne then
          match CreateCertificate pk now o db1 with
          | (err, o1, db2) => (err, true, o1, db2)
        else (none, false, o, db1)
    else
      match CreateCertificate pk now o db with
      | (err, o1, db2) => (err, true, o1, db2)

/-- depotGenerate in superset.go over the MongoDB depot: default the CA and
expiration from the depot options, compute the CSR and key in memory, read
the CA certificate stored under the DEFAULT CA name (do.CA), sign in memory
(which reads the CA named by opts.CA), and bundle the results. -/
def depotGenerate (pk : Pkix) (now : Int) (db : MongoState) (name : String)
    (dOpts : DepotOptions) (opts : CertificateOptions) :
    Except String Credentials :=
  let opts1 := if opts.ca = "" then { opts with ca := dOpts.ca } else opts
  let opts2 :=
    if opts1.expires = 0 then
      { opts1 with expires := dOpts.defaultExpiration }
    else opts1
  match CertRequestInMemory pk opts2 with
  | Except.error e => Except.error e
  | Except.ok (_, keyPem, opts3) =>
    match mongoGet db (crtTag dOpts.ca) with
    | Except.error e => Except.error e
    | Except.ok pemCACrt =>
      match (SignInMemory pk now opts3 db).1 with
      | Except.error e => Except.error e
      | Except.ok pemCrt =>
        match NewCredentials pemCACrt pemCrt keyPem with
        | Except.error e => Except.error e
        | Except.ok creds => Except.ok { creds with serverName := name }

/-- mongoDepot.GenerateWithOptions in mongodb_depot.go: depotGenerate with
the options' common name as the server name and the depot's configured
default options. -/
def mongoGenerateWithOptions (pk : Pkix) (now : Int) (db : MongoState)
    (dOpts : DepotOptions) (opts : CertificateOptions) :
    Except String Credentials :=
  depotGenerate pk now db opts.commonName dOpts opts

/-- The observable outcome of a successful certificate (re)creation: the
certificate stored under the formatted host name is exactly the output of
the create-certificate primitive requested with expiry now+Expires (a
freshly dated certificate), and its NotAfter is recorded as the document's
TTL; when Host and CommonName agree it is also the certificate under the
formatted common name. -/
def freshCertStored (pk : Pkix) (now : Int) (o : CertificateOptions)
    (dbF : MongoState) : Prop :=
  ∃ crtOut,
    storedOpt dbF (formatName o.host) ArtifactKind.crt = some crtOut
    ∧ (o.host = o.commonName →
        storedOpt dbF (formatName o.commonName) ArtifactKind.crt
          = some crtOut)
    ∧ ∃ caPem keyPem csrPem raw,
        ((if o.intermediate then pk.createIntermediate else pk.createHost)
            caPem keyPem csrPem (now + o.expires) = Except.ok crtOut)
        ∧ pk.parseCert crtOut = Except.ok raw
        ∧ ∃ u, findOne dbF (formatName o.host) = some u
            ∧ u.ttl = some raw.notAfter

/-- Decidable equality for Except, used to evaluate witnesses. -/
def exceptDecEq {ε α : Type} [DecidableEq ε] [DecidableEq α] :
    DecidableEq (Except ε α) := fun a b =>
  match a, b with
  | Except.error x, Except.error y =>
      if h : x = y then isTrue (by rw [h]) else isFalse (by simp [h])
  | Except.error _, Except.ok _ => isFalse (by simp)
  | Except.ok _, Except.error _ => isFalse (by simp)
  | Except.ok x, Except.ok y =>
      if h : x = y then isTrue (by rw [h]) else isFalse (by simp [h])

instance {ε α : Type} [DecidableEq ε] [DecidableEq α] :
    DecidableEq (Except ε α) := exceptDecEq

/-- A concrete PKI oracle used by the witnesses: a handful of recognizable
PEM strings with fixed parse results. -/
def pkTest : Pkix where
  parseCert := fun s =>
    if s = "CAPEM" then Except.ok ⟨1000, true⟩
    else if s = "CAPEM2" then Except.ok ⟨1000, true⟩
    else if s = "NONCA" then Except.ok ⟨1000, false⟩
    else if s = "OLDLEAF" then Except.ok ⟨300, false⟩
    else if s = "FRESH" then Except.ok ⟨495, false⟩
    else Except.error "bad certificate"
  parseCSR := fun s => Except.ok s
  parseKey := fun s => Except.ok s
  readKeyFile := fun _ => Except.error "no such file"
  createKey := fun _ => Except.ok "NEWKEY"
  encryptKey := fun k p => k ++ "|" ++ p
  decryptKey := fun k _ => Except.ok k
  parseIPs := fun l => Except.ok l
  parseURIs := fun l => Except.ok l
  createCSR := fun _ _ _ _ _ _ _ _ _ _ => Except.ok "NEWCSR"
  createCA := fun _ _ _ _ _ _ _ _ => Except.ok "CAPEM"
  createCRL := fun _ _ _ => Except.ok "CRL"
  createHost := fun _ _ _ _ => Except.ok "FRESH"
  createIntermediate := fun _ _ _ _ => Except.ok "FRESH"

/-- Witness fixture: options naming the CA "root". -/
def optsInitW : CertificateOptions :=
  ⟨"", 0, "", "", "", "root", "", "", [], [], [], "", 100, "", "", "",
    false, none, none, none⟩

/-- Witness fixture: options with an empty common name. -/
def optsEmptyW : CertificateOptions :=
  ⟨"", 0, "", "", "", "", "", "", [], [], [], "", 100, "", "", "",
    false, none, none, none⟩

/-- Witness fixture: a state already holding a certificate for "root". -/
def dbInitW : MongoState := [⟨"root", some "CAPEM", none, none, none, none⟩]

/-- Witness fixture: leaf options for host "localhost" signed by "root". -/
def optsHostW : CertificateOptions :=
  ⟨"", 0, "", "", "", "localhost", "", "", [], [], [], "", 200,
    "localhost", "root", "", false, none, none, none⟩

/-- Witness fixture: a state whose "root" certificate is not a CA. -/
def dbNonCaW : MongoState :=
  [⟨"root", some "NONCA", some "CAKEY", none, none, none⟩,
   ⟨"localhost", none, none, some "CSR", none, none⟩]

/-- Witness fixture: a CA "root" plus a "localhost" leaf expiring at 300
with its key, CSR, CRL and TTL. -/
def dbRotW : MongoState :=
  [⟨"root", some "CAPEM", some "CAKEY", none, some "CRL", some 1000⟩,
   ⟨"localhost", some "OLDLEAF", some "K", some "CSR", some "CRLLEAF",
     some 300⟩]

/-- Witness fixture: two CAs with distinct stored certificates. -/
def dbGenW : MongoState :=
  [⟨"rootA", some "CAPEM", some "KA", none, none, none⟩,
   ⟨"rootB", some "CAPEM2", some "KB", none, none, none⟩]

/-- Witness fixture: generation options whose CA "rootB" differs from the
depot default "rootA". -/
def optsGenW : CertificateOptions :=
  ⟨"", 0, "", "", "", "srv", "", "", [], [], [], "", 100, "srv", "rootB",
    "", false, none, none, none⟩

/-- Witness fixture: depot default options naming CA "rootA". -/
def doGenW : DepotOptions := ⟨"rootA", 500⟩

theorem id_setField (u : User) (k : ArtifactKind) (v : String) :
    (setField u k v).id = u.id := by
  cases k <;> rfl

theorem id_unsetField (u : User) (k : ArtifactKind) :
    (unsetField u k).id = u.id := by
  cases k <;> rfl

theorem fieldOpt_setField_same (u : User) (k : ArtifactKind) (v : String) :
    fieldOpt (setField u k v) k = some v := by
  cases k <;> rfl

theorem fieldOpt_unsetField_same (u : User) (k : ArtifactKind) :
    fieldOpt (unsetField u k) k = none := by
  cases k <;> rfl

theorem fieldOpt_unsetField_ne (u : User) (k j : ArtifactKind) (h : j ≠ k) :
    fieldOpt (unsetField u k) j = fieldOpt u j := by
  cases k <;> cases j <;> first | rfl | exact absurd rfl h

theorem crl_unsetField (u : User) (k : ArtifactKind) (h : k ≠ ArtifactKind.crl) :
    (unsetField u k).certRevocList = u.certRevocList := by
  cases k <;> first | rfl | exact absurd rfl h

theorem ttl_unsetField (u : User) (k : ArtifactKind) :
    (unsetField u k).ttl = u.ttl := by
  cases k <;> rfl

theorem certReq_unsetField (u : User) (k : ArtifactKind)
    (h : k ≠ ArtifactKind.csr) :
    (unsetField u k).certReq = u.certReq := by
  cases k <;> first | rfl | exact absurd rfl h

theorem unsetField_absent (u : User) (k : ArtifactKind)
    (h : fieldOpt u k = none) : unsetField u k = u := by
  cases u
  cases k <;> simp_all [unsetField, fieldOpt]

theorem findOne_cons (u : User) (rest : MongoState) (n : String) :
    findOne (u :: rest) n = if u.id == n then some u else findOne rest n := by
  cases h : u.id == n <;> simp [findOne, List.find?, h]

theorem findOne_id (db : MongoState) (n : String) (u : User)
    (h : findOne db n = some u) : u.id = n := by
  have := List.find?_some h
  simpa using this

theorem findOne_updateFirst_eq (db : MongoState) (n : String) (g : User → User)
    (hg : ∀ u, (g u).id = u.id) :
    findOne (updateFirst db n g) n = Option.map g (findOne db n) := by
  induction db with
  | nil => rfl
  | cons u rest ih =>
    by_cases h : u.id = n
    · simp [updateFirst, findOne_cons, h, hg]
    · simp [updateFirst, findOne_cons, h, ih]

theorem findOne_updateFirst_ne (db : MongoState) (n x : String)
    (g : User → User) (hg : ∀ u, (g u).id = u.id) (hx : x ≠ n) :
    findOne (updateFirst db n g) x = findOne db x := by
  induction db with
  | nil => rfl
  | cons u rest ih =>
    by_cases h : u.id = n
    · have h1 : (u.id == n) = true := by simp [h]
      have h2 : ((g u).id == x) = false := by
        rw [hg, h]
        exact beq_eq_false_iff_ne.mpr (Ne.symm hx)
      have h3 : (u.id == x) = false := by
        rw [h]
        exact beq_eq_false_iff_ne.mpr (Ne.symm hx)
      simp [updateFirst, h1, findOne_cons, h2, h3]
    · have h1 : (u.id == n) = false := beq_eq_false_iff_ne.mpr h
      simp [updateFirst, h1, findOne_cons, ih]

theorem updateFirst_not_found (db : MongoState) (n : String) (g : User → User)
    (h : findOne db n = none) : updateFirst db n g = db := by
  induction db with
  | nil => rfl
  | cons u rest ih =>
    rw [findOne_cons] at h
    cases hb : (u.id == n) with
    | true => rw [hb] at h; simp at h
    | false =>
      rw [hb] at h
      simp only [if_false, Bool.false_eq_true, reduceIte] at h
      simp [updateFirst, hb, ih h]

theorem updateFirst_fix (db : MongoState) (n : String) (g : User → User)
    (u : User) (hf : findOne db n = some u) (hgu : g u = u) :
    updateFirst db n g = db := by
  induction db with
  | nil => simp [findOne, List.find?] at hf
  | cons a rest ih =>
    rw [findOne_cons] at hf
    cases hb : (a.id == n) with
    | true =>
      rw [hb] at hf
      simp only [if_true, reduceIte, Option.some.injEq] at hf
      have : g a = a := by rw [hf, hgu]
      simp [updateFirst, hb, this]
    | false =>
      rw [hb] at hf
      simp only [if_false, Bool.false_eq_true, reduceIte] at hf
      simp [updateFirst, hb, ih hf]

theorem findOne_append_none (db : MongoState) (x : User) (n : String)
    (h : findOne db n = none) :
    findOne (db ++ [x]) n = if x.id == n then some x else none := by
  induction db with
  | nil => rw [List.nil_append, findOne_cons]; rfl
  | cons u rest ih =>
    rw [findOne_cons] at h
    cases hb : (u.id == n) with
    | true => rw [hb] at h; simp at h
    | false =>
      rw [hb] at h
      simp only [if_false, Bool.false_eq_true, reduceIte] at h
      rw [List.cons_append, findOne_cons, hb]
      simp [ih h]

theorem upsert_findOne (db : MongoState) (n : String) (k : ArtifactKind)
    (v : String) :
    findOne (upsertSet db n k v) n
      = some (setField ((findOne db n).getD (emptyUser n)) k v) := by
  cases hf : findOne db n with
  | some u =>
    have heq := findOne_updateFirst_eq db n (fun u => setField u k v)
      (fun u => id_setField u k v)
    simp [upsertSet, hf, heq]
  | none =>
    have happ := findOne_append_none db (setField (emptyUser n) k v) n hf
    have hid : (setField (emptyUser n) k v).id = n := by
      rw [id_setField]; rfl
    simp [upsertSet, hf, happ, hid]

theorem map_updateFirst_proj {β : Type} (db : MongoState) (n : String)
    (g : User → User) (proj : User → β) (hp : ∀ u, proj (g u) = proj u) :
    (updateFirst db n g).map proj = db.map proj := by
  induction db with
  | nil => rfl
  | cons u rest ih =>
    cases hb : (u.id == n) <;> simp [updateFirst, hb, hp, ih]

theorem gnk_snd (n : String) (k : ArtifactKind) (hn : n ≠ "") :
    (getNameAndKey ⟨n, k⟩).2 = some k := by
  cases k <;> simp [getNameAndKey, hn]

theorem checkWith_key (res : FindOneOutcome) (n : String) (k : ArtifactKind)
    (hn : n ≠ "") :
    mongoCheckWith res ⟨n, k⟩ = (fieldStr (decodeOutcome res) k != "") := by
  cases k <;>
    simp [mongoCheckWith, getNameAndKey, hn, fieldStr, fieldOpt, User.certS,
      User.privateKeyS, User.certReqS, User.certRevocListS]

theorem mongoCheck_eq (db : MongoState) (n : String) (k : ArtifactKind)
    (hn : n ≠ "") :
    mongoCheck db ⟨n, k⟩
      = (fieldStr ((findOne db (getNameAndKey ⟨n, k⟩).1).getD userZero) k
          != "") := by
  unfold mongoCheck driverFindOne
  cases hf : findOne db (getNameAndKey ⟨n, k⟩).1 <;>
    simp [hf, checkWith_key _ _ _ hn, decodeOutcome]

theorem getWith_doc (u : User) (n : String) (k : ArtifactKind) (hn : n ≠ "") :
    mongoGetWith (FindOneOutcome.doc u) ⟨n, k⟩
      = (if fieldStr u k = "" then Except.error "no data available"
         else Except.ok (fieldStr u k)) := by
  cases k <;>
    simp [mongoGetWith, getNameAndKey, hn, fieldStr, fieldOpt, User.certS,
      User.privateKeyS, User.certReqS, User.certRevocListS]

theorem mongoGet_eq (db : MongoState) (n : String) (k : ArtifactKind)
    (hn : n ≠ "") :
    mongoGet db ⟨n, k⟩
      = (match findOne db (getNameAndKey ⟨n, k⟩).1 with
         | none =>
             Except.error
               ("name '" ++ (getNameAndKey ⟨n, k⟩).1 ++ "' not found")
         | some u =>
             if fieldStr u k = "" then Except.error "no data available"
             else Except.ok (fieldStr u k)) := by
  unfold mongoGet driverFindOne
  cases hf : findOne db (getNameAndKey ⟨n, k⟩).1 with
  | none => simp [hf, mongoGetWith]
  | some u => simp [hf, getWith_doc u n k hn]

theorem mongoCheckWithError_ok (db : MongoState) (tag : Tag) :
    mongoCheckWithError db tag = Except.ok (mongoCheck db tag) := by
  unfold mongoCheckWithError mongoCheck mongoCheckWithErrorWith driverFindOne
  cases findOne db (getNameAndKey tag).1 <;> rfl

theorem mongoCheck_empty_name (db : MongoState) (k : ArtifactKind) :
    mongoCheck db ⟨"", k⟩ = false := by
  unfold mongoCheck mongoCheckWith driverFindOne
  cases findOne db (getNameAndKey ⟨"", k⟩).1 <;>
    simp [getNameAndKey]

theorem fieldStr_userZero (k : ArtifactKind) : fieldStr userZero k = "" := by
  cases k <;> rfl

theorem fieldStr_of_none (u : User) (k : ArtifactKind)
    (h : fieldOpt u k = none) : fieldStr u k = "" := by
  simp [fieldStr, h]

theorem fieldStr_setField_same (u : User) (k : ArtifactKind) (v : String) :
    fieldStr (setField u k v) k = v := by
  simp [fieldStr, fieldOpt_setField_same]

theorem mongoPut_some_eq (db : MongoState) (n : String) (k : ArtifactKind)
    (s : String) (hn : n ≠ "") :
    mongoPut db ⟨n, k⟩ (some s)
      = Except.ok (upsertSet db (getNameAndKey ⟨n, k⟩).1 k s) := by
  unfold mongoPut
  simp [gnk_snd n k hn]

theorem mongoDelete_eq (db : MongoState) (n : String) (k : ArtifactKind)
    (hn : n ≠ "") :
    mongoDelete db ⟨n, k⟩
      = Except.ok (updateFirst db (getNameAndKey ⟨n, k⟩).1
          (fun u => unsetField u k)) := by
  unfold mongoDelete
  simp [gnk_snd n k hn]

theorem find?_filter_not {α : Type} (l : List α) (p : α → Bool) :
    (l.filter (fun e => !(p e))).find? p = none := by
  induction l with
  | nil => rfl
  | cons a t ih =>
    cases hp : p a <;> simp [List.filter, hp, List.find?, ih]

theorem find?_filter_of_imp {α : Type} (l : List α) (p q : α → Bool)
    (h : ∀ e, p e = true → q e = true) :
    (l.filter q).find? p = l.find? p := by
  induction l with
  | nil => rfl
  | cons a t ih =>
    cases hq : q a with
    | true => cases hp : p a <;> simp [List.filter, hq, List.find?, hp, ih]
    | false =>
      have hp : p a = false := by
        cases hpa : p a
        · rfl
        · exact absurd (h a hpa) (by simp [hq])
      simp [List.filter, hq, List.find?, hp, ih]

/-- Claim C1: a successful Put of non-empty data is followed by a Get that
returns exactly that data and a Check that returns true; and when the field
for the pair is absent (never written), Check returns false and Get fails.
Proved over the MongoDB backend. -/
theorem C1_put_get_check_roundtrip (db : MongoState) (n : String)
    (k : ArtifactKind) (s : String) (hn : n ≠ "") (hs : s ≠ "") :
    (∃ db2, mongoPut db ⟨n, k⟩ (some s) = Except.ok db2
       ∧ mongoGet db2 ⟨n, k⟩ = Except.ok s
       ∧ mongoCheck db2 ⟨n, k⟩ = true)
  ∧ (storedOpt db (getNameAndKey ⟨n, k⟩).1 k = none →
       mongoCheck db ⟨n, k⟩ = false
         ∧ exOk (mongoGet db ⟨n, k⟩) = false) := by
  constructor
  · refine ⟨upsertSet db (getNameAndKey ⟨n, k⟩).1 k s,
      mongoPut_some_eq db n k s hn, ?_, ?_⟩
    · rw [mongoGet_eq _ n k hn, upsert_findOne]
      simp [fieldStr_setField_same, hs]
    · rw [mongoCheck_eq _ n k hn, upsert_findOne]
      simp [fieldStr_setField_same, hs]
  · intro hst
    unfold storedOpt at hst
    constructor
    · rw [mongoCheck_eq db n k hn]
      cases hf : findOne db (getNameAndKey ⟨n, k⟩).1 with
      | none => simp [fieldStr_userZero]
      | some u =>
        rw [hf] at hst
        simp [fieldStr_of_none u k hst]
    · rw [mongoGet_eq db n k hn]
      cases hf : findOne db (getNameAndKey ⟨n, k⟩).1 with
      | none => rfl
      | some u =>
        rw [hf] at hst
        simp [fieldStr_of_none u k hst, exOk]

/-- Witness for C1 at a concrete input. -/
theorem C1_put_get_check_roundtrip_witness :
    ("alice" ≠ "" ∧ "PEM" ≠ "")
  ∧ ((∃ db2,
        mongoPut [] ⟨"alice", ArtifactKind.crt⟩ (some "PEM") = Except.ok db2
          ∧ mongoGet db2 ⟨"alice", ArtifactKind.crt⟩ = Except.ok "PEM"
          ∧ mongoCheck db2 ⟨"alice", ArtifactKind.crt⟩ = true)
     ∧ (storedOpt [] (getNameAndKey ⟨"alice", ArtifactKind.crt⟩).1
          ArtifactKind.crt = none →
          mongoCheck [] ⟨"alice", ArtifactKind.crt⟩ = false
            ∧ exOk (mongoGet [] ⟨"alice", ArtifactKind.crt⟩) = false)) :=
  ⟨⟨by decide, by decide⟩,
    C1_put_get_check_roundtrip [] "alice" ArtifactKind.crt "PEM"
      (by decide) (by decide)⟩

/-- Claim C4 counterexample: on the database backend, Put with a non-nil
zero-length value does NOT return an error; it succeeds and changes the
stored state (a document is upserted with the field set to ""). -/
theorem C4_put_empty_counterexample :
    mongoPut [] ⟨"alice", ArtifactKind.crt⟩ (some "")
      = Except.ok [⟨"alice", some "", none, none, none, none⟩] := by
  rfl

/-- Claim C4 amended: on the database backend only a nil value is rejected
by Put (the nil check precedes any database call, so the state is
untouched); a non-nil zero-length value is accepted and upserts the field
to the empty string, which Check and Get then treat as absent.  The
filesystem backend (modelled from the spec contract) rejects both empty and
nil data. -/
theorem C4_put_empty_amended (db : MongoState) (tag : Tag) (n : String)
    (k : ArtifactKind) (hn : n ≠ "") :
    mongoPut db tag none = Except.error "data is nil"
  ∧ (∃ db2, mongoPut db ⟨n, k⟩ (some "") = Except.ok db2
       ∧ mongoCheck db2 ⟨n, k⟩ = false
       ∧ exOk (mongoGet db2 ⟨n, k⟩) = false)
  ∧ (∀ fs : FsState, fsPut fs tag none = Except.error "data is nil"
       ∧ fsPut fs tag (some "") = Except.error "data is empty") := by
  refine ⟨rfl, ⟨upsertSet db (getNameAndKey ⟨n, k⟩).1 k "",
    mongoPut_some_eq db n k "" hn, ?_, ?_⟩, fun fs => ⟨rfl, rfl⟩⟩
  · rw [mongoCheck_eq _ n k hn, upsert_findOne]
    simp [fieldStr_setField_same]
  · rw [mongoGet_eq _ n k hn, upsert_findOne]
    simp [fieldStr_setField_same, exOk]

/-- Witness for the amended C4 at a concrete input. -/
theorem C4_put_empty_amended_witness :
    ("bob" ≠ "")
  ∧ (mongoPut [] ⟨"bob", ArtifactKind.privKey⟩ none
       = Except.error "data is nil"
     ∧ (∃ db2,
          mongoPut [] ⟨"bob", ArtifactKind.privKey⟩ (some "")
            = Except.ok db2
          ∧ mongoCheck db2 ⟨"bob", ArtifactKind.privKey⟩ = false
          ∧ exOk (mongoGet db2 ⟨"bob", ArtifactKind.privKey⟩) = false)
     ∧ (∀ fs : FsState,
          fsPut fs ⟨"bob", ArtifactKind.privKey⟩ none
            = Except.error "data is nil"
          ∧ fsPut fs ⟨"bob", ArtifactKind.privKey⟩ (some "")
            = Except.error "data is empty")) :=
  ⟨by decide,
    C4_put_empty_amended [] ⟨"bob", ArtifactKind.privKey⟩ "bob"
      ArtifactKind.privKey (by decide)⟩

/-- Claim C5: on the database backend, a document whose field for kind K is
the empty string behaves for Check, CheckWithError and Get exactly like a
document in which the field was never written (both yield Check false,
CheckWithError ok-false, and a Get failure). -/
theorem C5_empty_field_is_absent (db : MongoState) (n : String)
    (k : ArtifactKind) (u : User) (hn : n ≠ "")
    (hf : findOne db (getNameAndKey ⟨n, k⟩).1 = some u)
    (hfield : fieldOpt u k = some "" ∨ fieldOpt u k = none) :
    mongoCheck db ⟨n, k⟩ = false
  ∧ mongoCheckWithError db ⟨n, k⟩ = Except.ok false
  ∧ exOk (mongoGet db ⟨n, k⟩) = false := by
  have hstr : fieldStr u k = "" := by
    cases hfield with
    | inl h => simp [fieldStr, h]
    | inr h => simp [fieldStr, h]
  have hchk : mongoCheck db ⟨n, k⟩ = false := by
    rw [mongoCheck_eq db n k hn, hf]
    simp [hstr]
  refine ⟨hchk, ?_, ?_⟩
  · rw [mongoCheckWithError_ok, hchk]
  · rw [mongoGet_eq db n k hn, hf]
    simp [hstr, exOk]

/-- Witness for C5 at a concrete input, in both the stored-empty and the
never-written form. -/
theorem C5_empty_field_is_absent_witness :
    ("carol" ≠ ""
       ∧ findOne [⟨"carol", some "", none, none, none, none⟩]
           (getNameAndKey ⟨"carol", ArtifactKind.crt⟩).1
         = some ⟨"carol", some "", none, none, none, none⟩
       ∧ (fieldOpt ⟨"carol", some "", none, none, none, none⟩
            ArtifactKind.crt = some ""
          ∨ fieldOpt ⟨"carol", some "", none, none, none, none⟩
              ArtifactKind.crt = none))
  ∧ (mongoCheck [⟨"carol", some "", none, none, none, none⟩]
       ⟨"carol", ArtifactKind.crt⟩ = false
     ∧ mongoCheckWithError [⟨"carol", some "", none, none, none, none⟩]
         ⟨"carol", ArtifactKind.crt⟩ = Except.ok false
     ∧ exOk (mongoGet [⟨"carol", some "", none, none, none, none⟩]
         ⟨"carol", ArtifactKind.crt⟩) = false) :=
  ⟨⟨by decide, by decide, Or.inl (by decide)⟩,
    C5_empty_field_is_absent [⟨"carol", some "", none, none, none, none⟩]
      "carol" ArtifactKind.crt ⟨"carol", some "", none, none, none, none⟩
      (by decide) (by decide) (Or.inl (by decide))⟩

/-- Claim C8 counterexample: a storage-layer failure during Check's lookup
does NOT surface an error to the immediate caller: Check converts it to the
boolean false, exactly like "not found" (only CheckWithError surfaces
it). -/
theorem C8_check_swallow_counterexample :
    mongoCheckWith (FindOneOutcome.dbError "connection reset")
        ⟨"alice", ArtifactKind.crt⟩ = false
  ∧ mongoCheckWithErrorWith (FindOneOutcome.dbError "connection reset")
        ⟨"alice", ArtifactKind.crt⟩ = Except.error "connection reset" :=
  ⟨rfl, rfl⟩

theorem checkWith_decode_zero (res : FindOneOutcome) (tag : Tag)
    (hres : decodeOutcome res = userZero) : mongoCheckWith res tag = false := by
  unfold mongoCheckWith
  rcases h : (getNameAndKey tag).2 with _ | k
  · simp [h]
  · cases k <;>
      simp [h, hres, userZero, User.certS, User.privateKeyS, User.certReqS,
        User.certRevocListS]

/-- Claim C8 amended: Check never raises; it returns false for ordinary
"not found" AND for storage-layer failures during its lookup (which are
only logged), while CheckWithError surfaces the storage-layer failure as an
error and treats "not found" as ok-false. -/
theorem C8_check_swallow_amended (tag : Tag) (e : String) (u : User) :
    mongoCheckWith FindOneOutcome.noDocuments tag = false
  ∧ mongoCheckWith (FindOneOutcome.dbError e) tag = false
  ∧ mongoCheckWithErrorWith (FindOneOutcome.dbError e) tag = Except.error e
  ∧ mongoCheckWithErrorWith FindOneOutcome.noDocuments tag = Except.ok false
  ∧ mongoCheckWithErrorWith (FindOneOutcome.doc u) tag
      = Except.ok (mongoCheckWith (FindOneOutcome.doc u) tag) := by
  refine ⟨checkWith_decode_zero FindOneOutcome.noDocuments tag rfl,
    checkWith_decode_zero (FindOneOutcome.dbError e) tag rfl, rfl, ?_, rfl⟩
  exact congrArg Except.ok
    (checkWith_decode_zero FindOneOutcome.noDocuments tag rfl)

/-- Claim C6: on the database backend, Delete removes only the one field
(the addressed kind of the addressed identity): every other (identity,
kind) observation through Check and Get is unchanged; it succeeds as a
no-op when the identity or the field does not exist.  The filesystem
backend (modelled from the spec contract) fails when the file does not
exist and removes only the addressed file otherwise. -/
theorem C6_delete_removes_only_target (db : MongoState) (n : String)
    (k : ArtifactKind) (hn : n ≠ "") :
    (∃ db2, mongoDelete db ⟨n, k⟩ = Except.ok db2
       ∧ mongoCheck db2 ⟨n, k⟩ = false
       ∧ (∀ n2 k2, n2 ≠ "" →
            (getNameAndKey ⟨n2, k2⟩).1 ≠ (getNameAndKey ⟨n, k⟩).1
              ∨ k2 ≠ k →
            mongoCheck db2 ⟨n2, k2⟩ = mongoCheck db ⟨n2, k2⟩
              ∧ mongoGet db2 ⟨n2, k2⟩ = mongoGet db ⟨n2, k2⟩)
       ∧ (findOne db (getNameAndKey ⟨n, k⟩).1 = none → db2 = db)
       ∧ (∀ u, findOne db (getNameAndKey ⟨n, k⟩).1 = some u →
            fieldOpt u k = none → db2 = db))
  ∧ (∀ fs : FsState, fsLookup fs ⟨n, k⟩ = none →
       fsDelete fs ⟨n, k⟩ = Except.error "file does not exist")
  ∧ (∀ fs fs2 : FsState, fsDelete fs ⟨n, k⟩ = Except.ok fs2 →
       (∀ tag2 : Tag, tag2.name ≠ n ∨ tag2.kind ≠ k →
          fsLookup fs2 tag2 = fsLookup fs tag2)
         ∧ fsLookup fs2 ⟨n, k⟩ = none) := by
  have hid : ∀ u : User, (unsetField u k).id = u.id :=
    fun u => id_unsetField u k
  refine ⟨⟨updateFirst db (getNameAndKey ⟨n, k⟩).1 (fun u => unsetField u k),
    mongoDelete_eq db n k hn, ?_, ?_, ?_, ?_⟩, ?_, ?_⟩
  · rw [mongoCheck_eq _ n k hn, findOne_updateFirst_eq db _ _ hid]
    cases hf : findOne db (getNameAndKey ⟨n, k⟩).1 with
    | none => simp [fieldStr_userZero]
    | some u => simp [fieldStr_of_none _ k (fieldOpt_unsetField_same u k)]
  · intro n2 k2 hn2 hdiff
    by_cases hnm : (getNameAndKey ⟨n2, k2⟩).1 = (getNameAndKey ⟨n, k⟩).1
    · have hk2 : k2 ≠ k := by
        cases hdiff with
        | inl h => exact absurd hnm h
        | inr h => exact h
      constructor
      · rw [mongoCheck_eq _ n2 k2 hn2, mongoCheck_eq db n2 k2 hn2, hnm,
          findOne_updateFirst_eq db _ _ hid]
        cases hf : findOne db (getNameAndKey ⟨n, k⟩).1 with
        | none => rfl
        | some u =>
          simp [fieldStr, fieldOpt_unsetField_ne u k k2 hk2]
      · rw [mongoGet_eq _ n2 k2 hn2, mongoGet_eq db n2 k2 hn2, hnm,
          findOne_updateFirst_eq db _ _ hid]
        cases hf : findOne db (getNameAndKey ⟨n, k⟩).1 with
        | none => rfl
        | some u =>
          simp [fieldStr, fieldOpt_unsetField_ne u k k2 hk2]
    · have hfind := findOne_updateFirst_ne db (getNameAndKey ⟨n, k⟩).1
        (getNameAndKey ⟨n2, k2⟩).1 (fun u => unsetField u k) hid hnm
      constructor
      · rw [mongoCheck_eq _ n2 k2 hn2, mongoCheck_eq db n2 k2 hn2, hfind]
      · rw [mongoGet_eq _ n2 k2 hn2, mongoGet_eq db n2 k2 hn2, hfind]
  · intro hf
    exact updateFirst_not_found db _ _ hf
  · intro u hf hnone
    exact updateFirst_fix db _ _ u hf (unsetField_absent u k hnone)
  · intro fs h
    simp [fsDelete, h]
  · intro fs fs2 h
    unfold fsDelete at h
    cases hl : fsLookup fs ⟨n, k⟩ with
    | none => rw [hl] at h; exact absurd h (by simp)
    | some v =>
      rw [hl] at h
      simp only [Except.ok.injEq] at h
      subst h
      constructor
      · intro tag2 hdiff
        unfold fsLookup
        rw [find?_filter_of_imp]
        intro e he
        simp only [Bool.and_eq_true, beq_iff_eq] at he
        cases hdiff with
        | inl hd =>
          have : (e.1 == n) = false := by
            rw [he.1]; exact beq_eq_false_iff_ne.mpr hd
          simp [this]
        | inr hd =>
          have : (e.2.1 == k) = false := by
            rw [he.2]; exact beq_eq_false_iff_ne.mpr hd
          simp [this]
      · unfold fsLookup
        rw [find?_filter_not]
        rfl

/-- Witness for C6 at a concrete input. -/
theorem C6_delete_removes_only_target_witness :
    ("dave" ≠ "")
  ∧ ((∃ db2,
        mongoDelete [⟨"dave", some "C", some "K", none, none, some 5⟩]
            ⟨"dave", ArtifactKind.crt⟩ = Except.ok db2
          ∧ mongoCheck db2 ⟨"dave", ArtifactKind.crt⟩ = false
          ∧ (∀ n2 k2, n2 ≠ "" →
               (getNameAndKey ⟨n2, k2⟩).1
                   ≠ (getNameAndKey ⟨"dave", ArtifactKind.crt⟩).1
                 ∨ k2 ≠ ArtifactKind.crt →
               mongoCheck db2 ⟨n2, k2⟩
                   = mongoCheck
                       [⟨"dave", some "C", some "K", none, none, some 5⟩]
                       ⟨n2, k2⟩
                 ∧ mongoGet db2 ⟨n2, k2⟩
                     = mongoGet
                         [⟨"dave", some "C", some "K", none, none, some 5⟩]
                         ⟨n2, k2⟩)
          ∧ (findOne [⟨"dave", some "C", some "K", none, none, some 5⟩]
               (getNameAndKey ⟨"dave", ArtifactKind.crt⟩).1 = none →
               db2 = [⟨"dave", some "C", some "K", none, none, some 5⟩])
          ∧ (∀ u,
               findOne [⟨"dave", some "C", some "K", none, none, some 5⟩]
                   (getNameAndKey ⟨"dave", ArtifactKind.crt⟩).1 = some u →
               fieldOpt u ArtifactKind.crt = none →
               db2 = [⟨"dave", some "C", some "K", none, none, some 5⟩]))
     ∧ (∀ fs : FsState, fsLookup fs ⟨"dave", ArtifactKind.crt⟩ = none →
          fsDelete fs ⟨"dave", ArtifactKind.crt⟩
            = Except.error "file does not exist")
     ∧ (∀ fs fs2 : FsState,
          fsDelete fs ⟨"dave", ArtifactKind.crt⟩ = Except.ok fs2 →
          (∀ tag2 : Tag, tag2.name ≠ "dave" ∨ tag2.kind ≠ ArtifactKind.crt →
             fsLookup fs2 tag2 = fsLookup fs tag2)
            ∧ fsLookup fs2 ⟨"dave", ArtifactKind.crt⟩ = none)) :=
  ⟨by decide,
    C6_delete_removes_only_target
      [⟨"dave", some "C", some "K", none, none, some 5⟩] "dave"
      ArtifactKind.crt (by decide)⟩

theorem formatName_empty : formatName "" = "" := rfl

theorem mongoGet_empty_name (db : MongoState) (k : ArtifactKind)
    (s : String) : mongoGet db ⟨"", k⟩ ≠ Except.ok s := by
  unfold mongoGet mongoGetWith driverFindOne
  cases findOne db (getNameAndKey ⟨"", k⟩).1 <;> simp [getNameAndKey]

/-- Claim C2: Init fails when the common name is empty, and fails whenever
a certificate or a private key already exists under the space-formatted
common name; in each of these failing cases the returned state is exactly
the input state (both failures precede every write). -/
theorem C2_init_conflict_unchanged (pk : Pkix) (now : Int)
    (o : CertificateOptions) (db : MongoState) :
    (o.commonName = "" →
       mongoInit pk now o db = (some "must provide common name of CA", db))
  ∧ (mongoCheck db (crtTag (formatName o.commonName)) = true
       ∨ mongoCheck db (privKeyTag (formatName o.commonName)) = true →
       mongoInit pk now o db
         = (some "CA with specified name already exists", db)) := by
  constructor
  · intro h
    unfold mongoInit
    rw [if_pos h]
  · intro hex
    have hcn : o.commonName ≠ "" := by
      intro hc
      rw [hc, formatName_empty] at hex
      cases hex with
      | inl h =>
        exact Bool.noConfusion
          ((mongoCheck_empty_name db ArtifactKind.crt).symm.trans h)
      | inr h =>
        exact Bool.noConfusion
          ((mongoCheck_empty_name db ArtifactKind.privKey).symm.trans h)
    have hor : (mongoCheck db (crtTag (formatName o.commonName))
        || mongoCheck db (privKeyTag (formatName o.commonName))) = true := by
      rcases hex with h | h <;> simp [h]
    unfold mongoInit
    rw [if_neg hcn]
    simp only [mongoCheckWithError_ok, hor, if_true]

/-- Witness for C2 at concrete inputs: a conflicting Init and an Init with
an empty common name both fail and leave the state unchanged. -/
theorem C2_init_conflict_unchanged_witness :
    mongoInit pkTest 0 optsInitW dbInitW
      = (some "CA with specified name already exists", dbInitW)
  ∧ mongoInit pkTest 0 optsEmptyW dbInitW
      = (some "must provide common name of CA", dbInitW) :=
  ⟨(C2_init_conflict_unchanged pkTest 0 optsInitW dbInitW).2
      (Or.inl (by decide)),
    (C2_init_conflict_unchanged pkTest 0 optsEmptyW dbInitW).1 rfl⟩

theorem SignInMemory_ok_spec (pk : Pkix) (now : Int)
    (o : CertificateOptions) (db : MongoState) (c : String)
    (o2 : CertificateOptions) (hcrt : o.crtCache = none)
    (h : SignInMemory pk now o db = (Except.ok c, o2)) :
    o.host ≠ "" ∧ o.ca ≠ ""
  ∧ ∃ caPem raw csrPem keyPem,
      mongoGet db (crtTag (formatName o.ca)) = Except.ok caPem
      ∧ pk.parseCert caPem = Except.ok raw
      ∧ raw.isCA = true
      ∧ (certRequestedInMemory o = true
         ∨ ∃ b, mongoGet db (csrTag (formatName o.host)) = Except.ok b
             ∧ pk.parseCSR b = Except.ok csrPem)
      ∧ ((if o.intermediate then pk.createIntermediate else pk.createHost)
           caPem keyPem csrPem (now + o.expires) = Except.ok c)
      ∧ o2 = { o with crtCache := some c } := by
  unfold SignInMemory at h
  rw [hcrt] at h
  simp only [] at h
  by_cases hhost : o.host = ""
  · rw [if_pos hhost] at h
    exact absurd h (by simp)
  rw [if_neg hhost] at h
  by_cases hca : o.ca = ""
  · rw [if_pos hca] at h
    exact absurd h (by simp)
  rw [if_neg hca] at h
  refine ⟨hhost, hca, ?_⟩
  have hcsr : ∀ csrPem : String,
      (if certRequestedInMemory o then Except.ok (o.csrCache.getD "")
       else
         match mongoGet db (csrTag (formatName o.host)) with
         | Except.error e => Except.error e
         | Except.ok b => pk.parseCSR b) = Except.ok csrPem →
      certRequestedInMemory o = true
        ∨ ∃ b, mongoGet db (csrTag (formatName o.host)) = Except.ok b
            ∧ pk.parseCSR b = Except.ok csrPem := by
    intro csrPem hc
    cases hreq : certRequestedInMemory o with
    | true => exact Or.inl rfl
    | false =>
      rw [hreq] at hc
      simp only [Bool.false_eq_true, if_false, reduceIte] at hc
      cases hg : mongoGet db (csrTag (formatName o.host)) with
      | error e => rw [hg] at hc; exact absurd hc (by simp)
      | ok b =>
        rw [hg] at hc
        simp only [] at hc
        exact Or.inr ⟨b, rfl, hc⟩
  split at h
  · exact absurd h (by simp)
  rename_i csrPem hcsreq
  split at h
  · exact absurd h (by simp)
  rename_i caPem hcaget
  split at h
  · exact absurd h (by simp)
  rename_i raw hparse
  split at h
  · exact absurd h (by simp)
  rename_i hnotca
  have hisca : raw.isCA = true := by
    cases hi : raw.isCA
    · rw [hi] at hnotca
      exact absurd (by decide) hnotca
    · rfl
  split at h
  · exact absurd h (by simp)
  rename_i keyPem hkeyres
  split at h
  · exact absurd h (by simp)
  rename_i crtOut hmk
  simp only [Prod.mk.injEq, Except.ok.injEq] at h
  refine ⟨caPem, raw, csrPem, keyPem, hcaget, hparse, hisca,
    hcsr csrPem hcsreq, ?_, by rw [← h.2, ← h.1]⟩
  cases hint : o.intermediate <;>
    rw [hint] at hmk <;>
    simp only [Bool.false_eq_true, if_true, if_false, reduceIte]
      at hmk ⊢ <;>
    rw [hmk, h.1]

theorem SignInMemory_error_opts (pk : Pkix) (now : Int)
    (o : CertificateOptions) (db : MongoState) (e : String)
    (o2 : CertificateOptions)
    (h : SignInMemory pk now o db = (Except.error e, o2)) : o2 = o := by
  unfold SignInMemory at h
  cases hc : o.crtCache with
  | some c =>
    rw [hc] at h
    simp only [] at h
    exact absurd (congrArg Prod.fst h) (by simp)
  | none =>
    rw [hc] at h
    simp only [] at h
    by_cases hhost : o.host = ""
    · rw [if_pos hhost] at h
      simp only [Prod.mk.injEq] at h
      exact h.2.symm
    rw [if_neg hhost] at h
    by_cases hca : o.ca = ""
    · rw [if_pos hca] at h
      simp only [Prod.mk.injEq] at h
      exact h.2.symm
    rw [if_neg hca] at h
    split at h
    · simp only [Prod.mk.injEq] at h
      exact h.2.symm
    split at h
    · simp only [Prod.mk.injEq] at h
      exact h.2.symm
    split at h
    · simp only [Prod.mk.injEq] at h
      exact h.2.symm
    split at h
    · simp only [Prod.mk.injEq] at h
      exact h.2.symm
    split at h
    · simp only [Prod.mk.injEq] at h
      exact h.2.symm
    split at h
    · simp only [Prod.mk.injEq] at h
      exact h.2.symm
    · exact absurd (congrArg Prod.fst h) (by simp)

/-- Claim C7: with no cached signed certificate, SignInMemory fails when
the certificate stored under the formatted CA name parses with IsCA false,
and in that case caches nothing (the options are returned unchanged); a
certificate is only ever produced from a CSR that exists in memory or in
storage, signed by a stored CA certificate whose IsCA is true. -/
theorem C7_sign_requires_ca (pk : Pkix) (now : Int)
    (o : CertificateOptions) (db : MongoState) (hcrt : o.crtCache = none) :
    (∀ caPem raw,
       mongoGet db (crtTag (formatName o.ca)) = Except.ok caPem →
       pk.parseCert caPem = Except.ok raw → raw.isCA = false →
       exOk (SignInMemory pk now o db).1 = false
         ∧ (SignInMemory pk now o db).2 = o)
  ∧ (∀ c o2, SignInMemory pk now o db = (Except.ok c, o2) →
       ∃ caPem raw,
         mongoGet db (crtTag (formatName o.ca)) = Except.ok caPem
         ∧ pk.parseCert caPem = Except.ok raw
         ∧ raw.isCA = true
         ∧ (certRequestedInMemory o = true
            ∨ ∃ b, mongoGet db (csrTag (formatName o.host)) = Except.ok b
                ∧ exOk (pk.parseCSR b) = true)) := by
  constructor
  · intro caPem raw hget hparse hfalse
    rcases hr : SignInMemory pk now o db with ⟨r1, oR⟩
    cases r1 with
    | error e =>
      exact ⟨rfl, SignInMemory_error_opts pk now o db e oR hr⟩
    | ok c =>
      exfalso
      obtain ⟨_, _, caPem2, raw2, _, _, hget2, hparse2, hisca2, _⟩ :=
        SignInMemory_ok_spec pk now o db c oR hcrt hr
      have hcp : caPem2 = caPem := by
        have := hget2.symm.trans hget
        exact (Except.ok.injEq _ _).mp this
      rw [hcp] at hparse2
      have hrr : raw2 = raw := by
        have := hparse2.symm.trans hparse
        exact (Except.ok.injEq _ _).mp this
      rw [hrr, hfalse] at hisca2
      exact Bool.noConfusion hisca2
  · intro c o2 h
    obtain ⟨_, _, caPem, raw, csrPem, _, hget, hparse, hisca, hdisj, _, _⟩ :=
      SignInMemory_ok_spec pk now o db c o2 hcrt h
    refine ⟨caPem, raw, hget, hparse, hisca, ?_⟩
    cases hdisj with
    | inl hmem => exact Or.inl hmem
    | inr hb =>
      obtain ⟨b, hbget, hbparse⟩ := hb
      exact Or.inr ⟨b, hbget, by rw [hbparse]; rfl⟩

/-- Witness for C7 at a concrete input: signing against a stored non-CA
certificate fails and caches nothing. -/
theorem C7_sign_requires_ca_witness :
    exOk (SignInMemory pkTest 0 optsHostW dbNonCaW).1 = false
  ∧ (SignInMemory pkTest 0 optsHostW dbNonCaW).2 = optsHostW :=
  (C7_sign_requires_ca pkTest 0 optsHostW dbNonCaW rfl).1 "NONCA"
    ⟨1000, false⟩ (by decide) (by decide) rfl

theorem crtTag_def (n : String) : crtTag n = ⟨n, ArtifactKind.crt⟩ := rfl

theorem privKeyTag_def (n : String) :
    privKeyTag n = ⟨n, ArtifactKind.privKey⟩ := rfl

theorem csrTag_def (n : String) : csrTag n = ⟨n, ArtifactKind.csr⟩ := rfl

theorem crlTag_def (n : String) : crlTag n = ⟨n, ArtifactKind.crl⟩ := rfl

theorem check_unset_same (db : MongoState) (n : String) (k : ArtifactKind)
    (hn : n ≠ "") :
    mongoCheck (updateFirst db (getNameAndKey ⟨n, k⟩).1
      (fun u => unsetField u k)) ⟨n, k⟩ = false := by
  rw [mongoCheck_eq _ n k hn,
    findOne_updateFirst_eq db _ _ (fun u => id_unsetField u k)]
  cases hf : findOne db (getNameAndKey ⟨n, k⟩).1 with
  | none => simp [fieldStr_userZero]
  | some u => simp [fieldStr_of_none _ k (fieldOpt_unsetField_same u k)]

theorem check_unset_preserve (db : MongoState) (nm : String) (n : String)
    (k k2 : ArtifactKind) (hn : n ≠ "") (hk : k2 ≠ k) :
    mongoCheck (updateFirst db nm (fun u => unsetField u k)) ⟨n, k2⟩
      = mongoCheck db ⟨n, k2⟩ := by
  by_cases hx : (getNameAndKey ⟨n, k2⟩).1 = nm
  · rw [mongoCheck_eq _ n k2 hn, mongoCheck_eq db n k2 hn, hx,
      findOne_updateFirst_eq db nm _ (fun u => id_unsetField u k)]
    cases hf : findOne db nm with
    | none => rfl
    | some u => simp [fieldStr, fieldOpt_unsetField_ne u k k2 hk]
  · rw [mongoCheck_eq _ n k2 hn, mongoCheck_eq db n k2 hn,
      findOne_updateFirst_ne db nm _ _ (fun u => id_unsetField u k) hx]

theorem proj3_unsetField (u : User) (k : ArtifactKind)
    (h : k ≠ ArtifactKind.crl) :
    ((unsetField u k).id, (unsetField u k).certRevocList,
        (unsetField u k).ttl)
      = (u.id, u.certRevocList, u.ttl) := by
  rw [id_unsetField, crl_unsetField u k h, ttl_unsetField]

theorem proj2_unsetField (u : User) (k : ArtifactKind)
    (h : k ≠ ArtifactKind.csr) :
    ((unsetField u k).id, (unsetField u k).certReq) = (u.id, u.certReq) := by
  rw [id_unsetField, certReq_unsetField u k h]

theorem check_name_nonempty (db : MongoState) (n : String)
    (k : ArtifactKind) (h : mongoCheck db ⟨n, k⟩ = true) : n ≠ "" := by
  intro hc
  rw [hc] at h
  exact Bool.noConfusion ((mongoCheck_empty_name db k).symm.trans h)

theorem DeleteOnExpiration_notfound (pk : Pkix) (now : Int)
    (db : MongoState) (name : String) (after : Int)
    (h : mongoCheck db (crtTag name) = false) :
    DeleteOnExpiration pk now db name after = Except.ok (false, db) := by
  unfold DeleteOnExpiration
  rw [mongoCheckWithError_ok, h]
  rfl

theorem DeleteOnExpiration_notdue (pk : Pkix) (now : Int) (db : MongoState)
    (name : String) (after : Int) (pem : String) (raw : RawCert)
    (hchk : mongoCheck db (crtTag name) = true)
    (hget : mongoGet db (crtTag name) = Except.ok pem)
    (hparse : pk.parseCert pem = Except.ok raw)
    (hge : now + after ≤ raw.notAfter) :
    DeleteOnExpiration pk now db name after = Except.ok (false, db) := by
  unfold DeleteOnExpiration
  rw [mongoCheckWithError_ok, hchk]
  simp only [Bool.not_true, Bool.false_eq_true, if_false, reduceIte]
  rw [hget]
  simp only []
  rw [hparse]
  simp only []
  rw [if_neg (not_lt.mpr hge)]

theorem DeleteOnExpiration_deletes (pk : Pkix) (now : Int)
    (db : MongoState) (name : String) (after : Int) (pem : String)
    (raw : RawCert)
    (hchk : mongoCheck db (crtTag name) = true)
    (hget : mongoGet db (crtTag name) = Except.ok pem)
    (hparse : pk.parseCert pem = Except.ok raw)
    (hlt : raw.notAfter < now + after) :
    ∃ db3, DeleteOnExpiration pk now db name after = Except.ok (true, db3)
      ∧ mongoCheck db3 (crtTag name) = false
      ∧ mongoCheck db3 (privKeyTag name) = false
      ∧ (raw.isCA = false → mongoCheck db3 (csrTag name) = false)
      ∧ (raw.isCA = true →
           db3.map (fun u => (u.id, u.certReq))
             = db.map (fun u => (u.id, u.certReq)))
      ∧ db3.map (fun u => (u.id, u.certRevocList, u.ttl))
          = db.map (fun u => (u.id, u.certRevocList, u.ttl)) := by
  rw [crtTag_def] at hchk hget
  have hn : name ≠ "" := check_name_nonempty db name ArtifactKind.crt hchk
  have heq1 : ∀ db0 : MongoState, DeleteOnExpiration pk now db0 name after
      = (match mongoCheckWithError db0 (crtTag name) with
         | Except.error e => Except.error e
         | Except.ok ex =>
           if !ex then Except.ok (false, db0)
           else
             match mongoGet db0 (crtTag name) with
             | Except.error e => Except.error e
             | Except.ok pem =>
               match pk.parseCert pem with
               | Except.error e => Except.error e
               | Except.ok rawCert =>
                 if rawCert.notAfter < now + after then
                   match mongoDelete db0 (crtTag name) with
                   | Except.error e => Except.error e
                   | Except.ok db1 =>
                     match
                       (if !rawCert.isCA then mongoDelete db1 (csrTag name)
                        else Except.ok db1) with
                     | Except.error e => Except.error e
                     | Except.ok db2 =>
                       match mongoDelete db2 (privKeyTag name) with
                       | Except.error e => Except.error e
                       | Except.ok db3 => Except.ok (true, db3)
                 else Except.ok (false, db0)) :=
    fun db0 => rfl
  cases hca : raw.isCA with
  | false =>
    refine ⟨updateFirst (updateFirst (updateFirst db
        (getNameAndKey ⟨name, ArtifactKind.crt⟩).1
        (fun u => unsetField u ArtifactKind.crt))
        (getNameAndKey ⟨name, ArtifactKind.csr⟩).1
        (fun u => unsetField u ArtifactKind.csr))
        (getNameAndKey ⟨name, ArtifactKind.privKey⟩).1
        (fun u => unsetField u ArtifactKind.privKey),
      ?_, ?_, ?_, ?_, ?_, ?_⟩
    · rw [heq1, crtTag_def, csrTag_def, privKeyTag_def,
        mongoCheckWithError_ok, hchk]
      simp only [Bool.not_true, Bool.false_eq_true, if_false, reduceIte]
      rw [hget]
      simp only []
      rw [hparse]
      simp only []
      rw [if_pos hlt, mongoDelete_eq db name ArtifactKind.crt hn]
      simp only []
      rw [hca]
      simp only [Bool.not_false, if_true, reduceIte]
      rw [mongoDelete_eq _ name ArtifactKind.csr hn]
      simp only []
      rw [mongoDelete_eq _ name ArtifactKind.privKey hn]
    · rw [crtTag_def,
        check_unset_preserve _ _ name ArtifactKind.privKey ArtifactKind.crt
          hn (by decide),
        check_unset_preserve _ _ name ArtifactKind.csr ArtifactKind.crt
          hn (by decide)]
      exact check_unset_same db name ArtifactKind.crt hn
    · rw [privKeyTag_def]
      exact check_unset_same _ name ArtifactKind.privKey hn
    · intro _
      rw [csrTag_def,
        check_unset_preserve _ _ name ArtifactKind.privKey ArtifactKind.csr
          hn (by decide)]
      exact check_unset_same _ name ArtifactKind.csr hn
    · intro hc
      exact Bool.noConfusion hc
    · rw [map_updateFirst_proj _ _ _ _
          (fun u => proj3_unsetField u ArtifactKind.privKey (by decide)),
        map_updateFirst_proj _ _ _ _
          (fun u => proj3_unsetField u ArtifactKind.csr (by decide)),
        map_updateFirst_proj _ _ _ _
          (fun u => proj3_unsetField u ArtifactKind.crt (by decide))]
  | true =>
    refine ⟨updateFirst (updateFirst db
        (getNameAndKey ⟨name, ArtifactKind.crt⟩).1
        (fun u => unsetField u ArtifactKind.crt))
        (getNameAndKey ⟨name, ArtifactKind.privKey⟩).1
        (fun u => unsetField u ArtifactKind.privKey),
      ?_, ?_, ?_, ?_, ?_, ?_⟩
    · rw [heq1, crtTag_def, csrTag_def, privKeyTag_def,
        mongoCheckWithError_ok, hchk]
      simp only [Bool.not_true, Bool.false_eq_true, if_false, reduceIte]
      rw [hget]
      simp only []
      rw [hparse]
      simp only []
      rw [if_pos hlt, mongoDelete_eq db name ArtifactKind.crt hn]
      simp only []
      rw [hca]
      simp only [Bool.not_true, Bool.false_eq_true, if_false, reduceIte]
      rw [mongoDelete_eq _ name ArtifactKind.privKey hn]
    · rw [crtTag_def,
        check_unset_preserve _ _ name ArtifactKind.privKey ArtifactKind.crt
          hn (by decide)]
      exact check_unset_same db name ArtifactKind.crt hn
    · rw [privKeyTag_def]
      exact check_unset_same _ name ArtifactKind.privKey hn
    · intro hc
      exact Bool.noConfusion hc
    · intro _
      rw [map_updateFirst_proj _ _ _ _
          (fun u => proj2_unsetField u ArtifactKind.privKey (by decide)),
        map_updateFirst_proj _ _ _ _
          (fun u => proj2_unsetField u ArtifactKind.crt (by decide))]
    · rw [map_updateFirst_proj _ _ _ _
          (fun u => proj3_unsetField u ArtifactKind.privKey (by decide)),
        map_updateFirst_proj _ _ _ _
          (fun u => proj3_unsetField u ArtifactKind.crt (by decide))]

/-- Claim C10: when the stored certificate expires before now+after,
DeleteOnExpiration deletes the certificate, the private key and — only
when the certificate is not a CA — the certificate signing request, and
returns true; the certificate revocation list and the TTL metadata are
never deleted by it (of any identity); when no certificate exists or it
expires at or after now+after, it returns false with the state
unchanged. -/
theorem C10_delete_on_expiration_scope (pk : Pkix) (now : Int)
    (db : MongoState) (name : String) (after : Int) :
    (mongoCheck db (crtTag name) = false →
       DeleteOnExpiration pk now db name after = Except.ok (false, db))
  ∧ (∀ pem raw, mongoCheck db (crtTag name) = true →
       mongoGet db (crtTag name) = Except.ok pem →
       pk.parseCert pem = Except.ok raw →
       (now + after ≤ raw.notAfter →
          DeleteOnExpiration pk now db name after = Except.ok (false, db))
       ∧ (raw.notAfter < now + after →
          ∃ db3,
            DeleteOnExpiration pk now db name after = Except.ok (true, db3)
            ∧ mongoCheck db3 (crtTag name) = false
            ∧ mongoCheck db3 (privKeyTag name) = false
            ∧ (raw.isCA = false → mongoCheck db3 (csrTag name) = false)
            ∧ (raw.isCA = true →
                 db3.map (fun u => (u.id, u.certReq))
                   = db.map (fun u => (u.id, u.certReq)))
            ∧ db3.map (fun u => (u.id, u.certRevocList, u.ttl))
                = db.map (fun u => (u.id, u.certRevocList, u.ttl)))) := by
  refine ⟨DeleteOnExpiration_notfound pk now db name after, ?_⟩
  intro pem raw hchk hget hparse
  exact ⟨fun hge => DeleteOnExpiration_notdue pk now db name after pem raw
      hchk hget hparse hge,
    fun hlt => DeleteOnExpiration_deletes pk now db name after pem raw
      hchk hget hparse hlt⟩

/-- Witness for C10 at a concrete input: an expiring non-CA leaf is
rotated out (certificate, key and CSR deleted; CRL and TTL kept). -/
theorem C10_delete_on_expiration_scope_witness :
    ∃ db3,
      DeleteOnExpiration pkTest 295 dbRotW "localhost" 10
          = Except.ok (true, db3)
      ∧ mongoCheck db3 (crtTag "localhost") = false
      ∧ mongoCheck db3 (privKeyTag "localhost") = false
      ∧ ((⟨300, false⟩ : RawCert).isCA = false →
           mongoCheck db3 (csrTag "localhost") = false)
      ∧ ((⟨300, false⟩ : RawCert).isCA = true →
           db3.map (fun u => (u.id, u.certReq))
             = dbRotW.map (fun u => (u.id, u.certReq)))
      ∧ db3.map (fun u => (u.id, u.certRevocList, u.ttl))
          = dbRotW.map (fun u => (u.id, u.certRevocList, u.ttl)) :=
  ((C10_delete_on_expiration_scope pkTest 295 dbRotW "localhost" 10).2
      "OLDLEAF" ⟨300, false⟩ (by decide) (by decide) (by decide)).2
    (by decide)

theorem mongoPut_empty_name (db : MongoState) (k : ArtifactKind)
    (s : String) :
    mongoPut db ⟨"", k⟩ (some s) = Except.error "empty update path" := rfl

theorem gnk_fst_crt (n : String) (hn : n ≠ "") :
    (getNameAndKey ⟨n, ArtifactKind.crt⟩).1 = formatName n := by
  simp [getNameAndKey, hn]

theorem formatName_idem (s : String) :
    formatName (formatName s) = formatName s := by
  unfold formatName
  show String.mk (((s.data.map fun c => if c = ' ' then '_' else c).map
    fun c => if c = ' ' then '_' else c)) = _
  congr 1
  rw [List.map_map]
  apply List.map_congr_left
  intro c _
  by_cases hc : c = ' ' <;> simp [hc, Function.comp]

theorem ttl_setField (u : User) (k : ArtifactKind) (v : String) :
    (setField u k v).ttl = u.ttl := by
  cases k <;> rfl

theorem fieldOpt_setTTL (u : User) (t : Option Int) (k : ArtifactKind) :
    fieldOpt { u with ttl := t } k = fieldOpt u k := by
  cases k <;> rfl

theorem CRIM_cases (pk : Pkix) (o : CertificateOptions)
    (t : String × String × CertificateOptions)
    (h : CertRequestInMemory pk o = Except.ok t) :
    t.2.2 = o
  ∨ ∃ cs ks,
      t.2.2 = { o with csrCache := some cs, keyCache := some ks } := by
  unfold CertRequestInMemory at h
  cases hc : o.csrCache with
  | some cs =>
    cases hk : o.keyCache with
    | some ks =>
      rw [hc, hk] at h
      simp only [Except.ok.injEq] at h
      exact Or.inl (by rw [← h])
    | none =>
      rw [hc, hk] at h
      simp only [] at h
      split at h
      · exact absurd h (by simp)
      split at h
      · exact absurd h (by simp)
      split at h
      · exact absurd h (by simp)
      split at h
      · exact absurd h (by simp)
      split at h
      · exact absurd h (by simp)
      simp only [Except.ok.injEq] at h
      exact Or.inr ⟨_, _, by rw [← h]⟩
  | none =>
    cases hk : o.keyCache with
    | some ks =>
      rw [hc, hk] at h
      simp only [] at h
      split at h
      · exact absurd h (by simp)
      split at h
      · exact absurd h (by simp)
      split at h
      · exact absurd h (by simp)
      split at h
      · exact absurd h (by simp)
      split at h
      · exact absurd h (by simp)
      simp only [Except.ok.injEq] at h
      exact Or.inr ⟨_, _, by rw [← h]⟩
    | none =>
      rw [hc, hk] at h
      simp only [] at h
      split at h
      · exact absurd h (by simp)
      split at h
      · exact absurd h (by simp)
      split at h
      · exact absurd h (by simp)
      split at h
      · exact absurd h (by simp)
      split at h
      · exact absurd h (by simp)
      simp only [Except.ok.injEq] at h
      exact Or.inr ⟨_, _, by rw [← h]⟩

theorem CRIM_preserves (pk : Pkix) (o : CertificateOptions)
    (t : String × String × CertificateOptions)
    (h : CertRequestInMemory pk o = Except.ok t) :
    t.2.2.host = o.host ∧ t.2.2.ca = o.ca ∧ t.2.2.expires = o.expires
      ∧ t.2.2.intermediate = o.intermediate
      ∧ t.2.2.crtCache = o.crtCache
      ∧ t.2.2.commonName = o.commonName := by
  rcases CRIM_cases pk o t h with h1 | ⟨cs, ks, h1⟩ <;> rw [h1] <;>
    exact ⟨rfl, rfl, rfl, rfl, rfl, rfl⟩

theorem PutCertFromMemory_ok_spec (pk : Pkix) (o : CertificateOptions)
    (db : MongoState) (dbF : MongoState) (crtv : String)
    (hc : o.crtCache = some crtv)
    (h : PutCertFromMemory pk o db = (none, dbF)) :
    ∃ raw, pk.parseCert crtv = Except.ok raw
      ∧ storedOpt dbF (formatName o.host) ArtifactKind.crt = some crtv
      ∧ ∃ u, findOne dbF (formatName o.host) = some u
          ∧ u.ttl = some raw.notAfter := by
  unfold PutCertFromMemory at h
  rw [hc] at h
  simp only [] at h
  rw [mongoCheckWithError_ok] at h
  simp only [] at h
  by_cases hfh : formatName o.host = ""
  · rw [hfh, crtTag_def, mongoCheck_empty_name] at h
    simp only [Bool.false_eq_true, if_false, reduceIte] at h
    rw [mongoPut_empty_name] at h
    simp only [] at h
    exact absurd (congrArg (fun p => p.1) h) (by simp)
  cases hex : mongoCheck db (crtTag (formatName o.host)) with
  | true =>
    rw [hex] at h
    simp only [if_true, reduceIte] at h
    exact absurd (congrArg (fun p => p.1) h) (by simp)
  | false =>
    rw [hex] at h
    simp only [Bool.false_eq_true, if_false, reduceIte] at h
    rw [crtTag_def, mongoPut_some_eq db (formatName o.host)
      ArtifactKind.crt crtv hfh] at h
    simp only [] at h
    cases hpr : pk.parseCert crtv with
    | error e =>
      rw [hpr] at h
      exact absurd (congrArg (fun p => p.1) h) (by simp)
    | ok raw =>
      rw [hpr] at h
      simp only [] at h
      unfold mongoPutTTL at h
      rw [formatName_idem, gnk_fst_crt _ hfh, formatName_idem] at h
      simp only [] at h
      rw [upsert_findOne] at h
      simp only [] at h
      cases hb : ((setField ((findOne db
          (formatName o.host)).getD (emptyUser (formatName o.host)))
          ArtifactKind.crt crtv).ttl == some raw.notAfter) with
      | true =>
        rw [hb] at h
        simp only [if_true, reduceIte] at h
        exact absurd (congrArg (fun p => p.1) h) (by simp)
      | false =>
        rw [hb] at h
        simp only [Bool.false_eq_true, if_false, reduceIte] at h
        have hdbF : dbF = updateFirst (upsertSet db (formatName o.host)
            ArtifactKind.crt crtv) (formatName o.host)
            (fun v => { v with ttl := some raw.notAfter }) := by
          have := congrArg (fun p => p.2) h
          simpa using this.symm
        refine ⟨raw, rfl, ?_, ?_⟩
        · unfold storedOpt
          rw [hdbF, findOne_updateFirst_eq _ _
              (fun v => { v with ttl := some raw.notAfter })
              (fun u => rfl),
            upsert_findOne]
          simp only [Option.map_some']
          rw [fieldOpt_setTTL, fieldOpt_setField_same]
        · rw [hdbF, findOne_updateFirst_eq _ _
              (fun v => { v with ttl := some raw.notAfter })
              (fun u => rfl),
            upsert_findOne]
          exact ⟨_, rfl, rfl⟩

theorem CreateCertificate_ok (pk : Pkix) (now : Int)
    (o : CertificateOptions) (db : MongoState) (oF : CertificateOptions)
    (dbF : MongoState) (hcrt : o.crtCache = none)
    (h : CreateCertificate pk now o db = (none, oF, dbF)) :
    ∃ caPem keyPem csrPem crtOut raw,
      ((if o.intermediate then pk.createIntermediate else pk.createHost)
          caPem keyPem csrPem (now + o.expires) = Except.ok crtOut)
      ∧ pk.parseCert crtOut = Except.ok raw
      ∧ storedOpt dbF (formatName o.host) ArtifactKind.crt = some crtOut
      ∧ (∃ u, findOne dbF (formatName o.host) = some u
           ∧ u.ttl = some raw.notAfter) := by
  unfold CreateCertificate CertRequest at h
  cases hcrim : CertRequestInMemory pk o with
  | error e =>
    rw [hcrim] at h
    simp only [] at h
    exact absurd (congrArg (fun p => p.1) h) (by simp)
  | ok t =>
    rw [hcrim] at h
    obtain ⟨c0, k0, o1⟩ := t
    simp only [] at h
    rcases hput : PutCertRequestFromMemory pk o1 db with ⟨err1, db1⟩
    rw [hput] at h
    cases err1 with
    | some e =>
      simp only [] at h
      exact absurd (congrArg (fun p => p.1) h) (by simp)
    | none =>
      simp only [] at h
      unfold SignCert at h
      rcases hsim : SignInMemory pk now o1 db1 with ⟨sres, o2⟩
      rw [hsim] at h
      cases sres with
      | error e =>
        simp only [] at h
        exact absurd (congrArg (fun p => p.1) h) (by simp)
      | ok crtv =>
        simp only [] at h
        rcases hpcf : PutCertFromMemory pk o2 db1 with ⟨err2, db2⟩
        rw [hpcf] at h
        cases err2 with
        | some e =>
          simp only [] at h
          exact absurd (congrArg (fun p => p.1) h) (by simp)
        | none =>
          simp only [Prod.mk.injEq] at h
          obtain ⟨hpres1, hpres2, hpres3, hpres4, hpres5, hpres6⟩ :=
            CRIM_preserves pk o (c0, k0, o1) hcrim
          have hcrt1 : o1.crtCache = none := by rw [hpres5, hcrt]
          obtain ⟨hh1, hca1, caPem, raw0, csrPem, keyPem, hget2, hparse2,
            hisca2, hdisj2, hmk2, ho2⟩ :=
            SignInMemory_ok_spec pk now o1 db1 crtv o2 hcrt1 hsim
          have hc2 : o2.crtCache = some crtv := by rw [ho2]
          obtain ⟨raw, hprC, hstored, hu⟩ :=
            PutCertFromMemory_ok_spec pk o2 db1 db2 crtv hc2 hpcf
          have hhost2 : o2.host = o.host := by rw [ho2]; exact hpres1
          refine ⟨caPem, keyPem, csrPem, crtv, raw, ?_, hprC, ?_, ?_⟩
          · rw [← hpres3, ← hpres4]
            exact hmk2
          · rw [← h.2.2, ← hhost2]
            exact hstored
          · rw [← h.2.2, ← hhost2]
            exact hu

theorem CreateCertificate_fresh (pk : Pkix) (now : Int)
    (o : CertificateOptions) (db : MongoState) (oF : CertificateOptions)
    (dbF : MongoState) (hcrt : o.crtCache = none)
    (h : CreateCertificate pk now o db = (none, oF, dbF)) :
    freshCertStored pk now o dbF := by
  obtain ⟨caPem, keyPem, csrPem, crtOut, raw, hmk, hpr, hst, hu⟩ :=
    CreateCertificate_ok pk now o db oF dbF hcrt h
  exact ⟨crtOut, hst, fun hhc => by rw [← hhc]; exact hst,
    caPem, keyPem, csrPem, raw, hmk, hpr, hu⟩

theorem DeleteOnExpiration_true_spec (pk : Pkix) (now : Int)
    (db : MongoState) (name : String) (after : Int) (db1 : MongoState)
    (h : DeleteOnExpiration pk now db name after = Except.ok (true, db1)) :
    mongoCheck db (crtTag name) = true
      ∧ ∃ pem raw, mongoGet db (crtTag name) = Except.ok pem
          ∧ pk.parseCert pem = Except.ok raw
          ∧ raw.notAfter < now + after := by
  unfold DeleteOnExpiration at h
  rw [mongoCheckWithError_ok] at h
  simp only [] at h
  cases hex : mongoCheck db (crtTag name) with
  | false =>
    rw [hex] at h
    simp only [Bool.not_false, if_true, reduceIte, Except.ok.injEq,
      Prod.mk.injEq] at h
    exact Bool.noConfusion h.1
  | true =>
    rw [hex] at h
    simp only [Bool.not_true, Bool.false_eq_true, if_false, reduceIte] at h
    split at h
    · exact absurd h (by simp)
    rename_i pem hget
    split at h
    · exact absurd h (by simp)
    rename_i raw hparse
    split at h
    · rename_i hlt
      exact ⟨rfl, pem, raw, hget, hparse, hlt⟩
    · simp only [Except.ok.injEq, Prod.mk.injEq] at h
      exact Bool.noConfusion h.1

/-- Claim C3: CreateCertificateOnExpiration reports created=true exactly
when no certificate exists under the common name or the existing one
expires before now+after (in which case it is deleted); on an error-free
run of the creation path a freshly dated certificate (built with expiry
now+Expires) is stored; when the certificate expires at or after
now+after it returns created=false with the state untouched. -/
theorem C3_create_on_expiration_rotates (pk : Pkix) (now : Int)
    (o : CertificateOptions) (db : MongoState) (after : Int)
    (hcrt : o.crtCache = none) :
    (mongoCheck db (crtTag o.commonName) = false →
       (CreateCertificateOnExpiration pk now o db after).2.1 = true
       ∧ ((CreateCertificateOnExpiration pk now o db after).1 = none →
           freshCertStored pk now o
             (CreateCertificateOnExpiration pk now o db after).2.2.2))
  ∧ (∀ pem raw0, mongoCheck db (crtTag o.commonName) = true →
       mongoGet db (crtTag o.commonName) = Except.ok pem →
       pk.parseCert pem = Except.ok raw0 →
       (now + after ≤ raw0.notAfter →
          CreateCertificateOnExpiration pk now o db after
            = (none, false, o, db))
       ∧ (raw0.notAfter < now + after →
          (CreateCertificateOnExpiration pk now o db after).2.1 = true
          ∧ ((CreateCertificateOnExpiration pk now o db after).1 = none →
              freshCertStored pk now o
                (CreateCertificateOnExpiration pk now o db after).2.2.2)))
  ∧ ((CreateCertificateOnExpiration pk now o db after).2.1 = true →
       mongoCheck db (crtTag o.commonName) = false
       ∨ ∃ pem raw, mongoGet db (crtTag o.commonName) = Except.ok pem
           ∧ pk.parseCert pem = Except.ok raw
           ∧ raw.notAfter < now + after) := by
  refine ⟨?_, ?_, ?_⟩
  case refine_3 =>
    intro hcreated
    by_cases hex : mongoCheck db (crtTag o.commonName) = true
    · right
      cases hdel : DeleteOnExpiration pk now db o.commonName after with
      | error e =>
        have hr : CreateCertificateOnExpiration pk now o db after
            = (some e, false, o, db) := by
          unfold CreateCertificateOnExpiration
          rw [mongoCheckWithError_ok, hex]
          simp only [if_true, reduceIte]
          rw [hdel]
        rw [hr] at hcreated
        exact Bool.noConfusion hcreated
      | ok p =>
        obtain ⟨dne, db1⟩ := p
        cases dne with
        | false =>
          have hr : CreateCertificateOnExpiration pk now o db after
              = (none, false, o, db1) := by
            unfold CreateCertificateOnExpiration
            rw [mongoCheckWithError_ok, hex]
            simp only [if_true, reduceIte]
            rw [hdel]
            rfl
          rw [hr] at hcreated
          exact Bool.noConfusion hcreated
        | true =>
          obtain ⟨_, pem, raw, hg, hp, hl⟩ :=
            DeleteOnExpiration_true_spec pk now db o.commonName after
              db1 hdel
          exact ⟨pem, raw, hg, hp, hl⟩
    · left
      simpa using hex
  · intro hchk
    have hr : CreateCertificateOnExpiration pk now o db after
        = (match CreateCertificate pk now o db with
           | (err, o1, db2) => (err, true, o1, db2)) := by
      unfold CreateCertificateOnExpiration
      rw [mongoCheckWithError_ok, hchk]
      rfl
    rcases hcc : CreateCertificate pk now o db with ⟨err, o1, db2⟩
    rw [hcc] at hr
    simp only [] at hr
    refine ⟨by rw [hr], ?_⟩
    intro hnone
    rw [hr] at hnone ⊢
    simp only [] at hnone
    rw [hnone] at hcc
    exact CreateCertificate_fresh pk now o db o1 db2 hcrt hcc
  · intro pem raw0 hchk hget hparse
    constructor
    · intro hge
      unfold CreateCertificateOnExpiration
      rw [mongoCheckWithError_ok, hchk]
      simp only [if_true, reduceIte]
      rw [DeleteOnExpiration_notdue pk now db o.commonName after pem raw0
        hchk hget hparse hge]
      rfl
    · intro hlt
      obtain ⟨db3, hdel, _⟩ := DeleteOnExpiration_deletes pk now db
        o.commonName after pem raw0 hchk hget hparse hlt
      have hr : CreateCertificateOnExpiration pk now o db after
          = (match CreateCertificate pk now o db3 with
             | (err, o1, db2) => (err, true, o1, db2)) := by
        unfold CreateCertificateOnExpiration
        rw [mongoCheckWithError_ok, hchk]
        simp only [if_true, reduceIte]
        rw [hdel]
        rfl
      rcases hcc : CreateCertificate pk now o db3 with ⟨err, o1, db2⟩
      rw [hcc] at hr
      simp only [] at hr
      refine ⟨by rw [hr], ?_⟩
      intro hnone
      rw [hr] at hnone ⊢
      simp only [] at hnone
      rw [hnone] at hcc
      exact CreateCertificate_fresh pk now o db3 o1 db2 hcrt hcc

/-- Witness for C3 at a concrete input: the "localhost" leaf expiring at
300 is rotated at now=295 with after=10, and a freshly dated certificate
is stored. -/
theorem C3_create_on_expiration_rotates_witness :
    (CreateCertificateOnExpiration pkTest 295 optsHostW dbRotW 10).2.1
        = true
  ∧ ((CreateCertificateOnExpiration pkTest 295 optsHostW dbRotW 10).1
        = none →
      freshCertStored pkTest 295 optsHostW
        (CreateCertificateOnExpiration pkTest 295 optsHostW dbRotW
          10).2.2.2) :=
  ((C3_create_on_expiration_rotates pkTest 295 optsHostW dbRotW 10
        rfl).2.1
      "OLDLEAF" ⟨300, false⟩ (by decide) (by decide) (by decide)).2
    (by decide)

/-- Claim C9: on a successful Generate/GenerateWithOptions run, the CA
certificate bytes placed in the returned Credentials are always the bytes
stored under the depot's configured default CA (do.CA), while the signing
step reads the CA named by the (explicit, non-empty) opts.CA; so when the
two names store different certificates, the returned CA certificate is not
the certificate of the CA that signed the leaf. -/
theorem C9_generate_ca_from_default (pk : Pkix) (now : Int)
    (db : MongoState) (name : String) (dOpts : DepotOptions)
    (opts : CertificateOptions) (creds : Credentials)
    (h : depotGenerate pk now db name dOpts opts = Except.ok creds) :
    mongoGet db (crtTag dOpts.ca) = Except.ok creds.caCert
  ∧ (opts.ca ≠ "" → opts.crtCache = none →
      ∃ signerPem raw,
        mongoGet db (crtTag (formatName opts.ca)) = Except.ok signerPem
        ∧ pk.parseCert signerPem = Except.ok raw ∧ raw.isCA = true) := by
  unfold depotGenerate at h
  simp only [] at h
  split at h
  · exact absurd h (by simp)
  rename_i c0 k0 o3 hcrim
  split at h
  · exact absurd h (by simp)
  rename_i pemCA hgca
  rcases hsim : SignInMemory pk now o3 db with ⟨sres, o4⟩
  rw [hsim] at h
  cases sres with
  | error e =>
    simp only [] at h
    exact absurd h (by simp)
  | ok pemCrt =>
    simp only [NewCredentials, Except.ok.injEq] at h
    constructor
    · rw [← h]
      exact hgca
    · intro hca hcrtc
      obtain ⟨hf1, hf2, hf3, hf4, hf5, hf6⟩ :=
        CRIM_preserves pk _ (c0, k0, o3) hcrim
      rw [if_neg hca] at hf2 hf5
      have hca3 : o3.ca = opts.ca := by
        by_cases he : opts.expires = 0
        · rw [if_pos he] at hf2
          exact hf2
        · rw [if_neg he] at hf2
          exact hf2
      have hcrt3 : o3.crtCache = none := by
        by_cases he : opts.expires = 0
        · rw [if_pos he] at hf5
          rw [hf5, hcrtc]
        · rw [if_neg he] at hf5
          rw [hf5, hcrtc]
      obtain ⟨_, _, caPem, raw, _, _, hget2, hparse2, hisca2, _⟩ :=
        SignInMemory_ok_spec pk now o3 db pemCrt o4 hcrt3 hsim
      rw [hca3] at hget2
      exact ⟨caPem, raw, hget2, hparse2, hisca2⟩

/-- Witness for C9 at a concrete input: the depot default CA is "rootA"
(storing CAPEM) while opts name CA "rootB" (storing CAPEM2); the returned
credentials carry CAPEM although the signer was rootB's CAPEM2. -/
theorem C9_generate_ca_from_default_witness :
    mongoGet dbGenW (crtTag doGenW.ca)
      = Except.ok (Credentials.caCert ⟨"CAPEM", "FRESH", "NEWKEY", "srv"⟩)
  ∧ (optsGenW.ca ≠ "" → optsGenW.crtCache = none →
      ∃ signerPem raw,
        mongoGet dbGenW (crtTag (formatName optsGenW.ca))
          = Except.ok signerPem
        ∧ pkTest.parseCert signerPem = Except.ok raw
        ∧ raw.isCA = true) :=
  C9_generate_ca_from_default pkTest 0 dbGenW "srv" doGenW optsGenW
    ⟨"CAPEM", "FRESH", "NEWKEY", "srv"⟩ rfl

end Certdepot
